import Mathlib

/-!
# Verification of the QuickbaseDemo in-memory record store

Shallow embedding of the repository's two table engines:

* `QBTable` — the fixed-schema variant (`src/Quickbase.cpp`, `src/Quickbase.hpp`):
  four-column records, a primary-key index, on-demand secondary indexes, a
  soft-delete/compaction lifecycle, and a string-driven query router.
* `QBTableDynamic` — the dynamic-schema variant (`src/src/Quickbase_dynamic.cpp`,
  `src/include/Quickbase_dynamic.hpp`): records carry a map of named fields, the
  schema is a set of declared columns plus derived (computed) columns, and
  queries take typed `FieldType` values.
* `findMatchingB` / `linearScanB` — the revised static query router found in the
  repository's unnamed source part (full-consumption numeric parsing).

Machine integers: the C++ `unsigned int` keys are modelled as `Nat` and `long`
column values as `Int`; `std::from_chars` overflow (`result_out_of_range`) is
modelled by explicit range checks against the 32-bit unsigned and 64-bit signed
bounds, since both implementations treat any nonzero error code as a parse
failure.  `std::unordered_map` and `std::map` are modelled as association lists
with unique keys (`alookup`/`aupsert`/`aerase`); iteration order of the C++ maps
is never observable through the public operations modelled here.  C++ exceptions
(`std::get` on a wrong variant alternative, `throw std::runtime_error`) are
modelled with `Except DBError`.
-/

namespace Quickbase

/-- `FieldType`/`IndexKey` — the tagged union `std::variant<uint, long, std::string>`
used both as a record field (dynamic variant) and as a secondary-index key
(both variants). -/
inductive FieldType where
  | u (n : Nat)
  | l (i : Int)
  | s (str : String)
  deriving DecidableEq, Repr, Inhabited

/-- Fixed-schema record (`db::QBRecord`): four typed columns, `column0` is the
primary key. -/
structure QBRecord where
  column0 : Nat
  column1 : String
  column2 : Int
  column3 : String
  deriving DecidableEq, Repr, Inhabited

/-- Column identifier of the fixed-schema variant (`db::ColumnType`). -/
inductive ColumnType where
  | column0
  | column1
  | column2
  | column3
  deriving DecidableEq, Repr, Inhabited

/-- Errors raised as C++ exceptions by the dynamic variant. -/
inductive DBError where
  /-- `std::get` on a `std::variant` holding a different alternative. -/
  | badVariantGet
  /-- `std::runtime_error("Unknown column: ...")` from `getField`. -/
  | unknownColumn
  /-- `std::runtime_error("Cannot drop index on primary key column")`. -/
  | cannotDropPk
  /-- `std::runtime_error("Cannot index unknown column")`. -/
  | cannotIndexUnknown
  deriving DecidableEq, Repr, Inhabited

/-! ## Numeric parsing (`std::from_chars`)

`from_chars` consumes the longest prefix matching the numeric pattern (digits
for unsigned; an optional minus sign followed by digits for signed), without
skipping whitespace and without accepting `+`.  If no characters match, the
error is `invalid_argument`; if the value does not fit the target type the
error is `result_out_of_range`.  Both are nonzero `std::errc` values, which is
all the callers test. -/

/-- Numeric value of a decimal digit character. -/
def charVal (c : Char) : Nat := c.toNat - 48

/-- Value of a list of decimal digits, most significant first. -/
def digitsVal (ds : List Char) : Nat :=
  ds.foldl (fun acc c => acc * 10 + charVal c) 0

/-- `UINT_MAX` for the 32-bit `unsigned int` used as the primary-key type. -/
def UINT_MAX : Nat := 4294967295

/-- `LONG_MAX` for the 64-bit `long` (LP64) used by `column2`. -/
def LONG_MAX : Int := 9223372036854775807

/-- `LONG_MIN` for the 64-bit `long` (LP64). -/
def LONG_MIN : Int := -9223372036854775808

/-- `std::from_chars` into `unsigned int`, returning `none` whenever the error
code is nonzero (no digit prefix, or overflow).  The consumed-position check is
NOT part of this model: `src/Quickbase.cpp` tests only `ec`. -/
def parseUIntChars (str : String) : Option Nat :=
  let ds := str.toList.takeWhile Char.isDigit
  if ds.isEmpty then none
  else if digitsVal ds ≤ UINT_MAX then some (digitsVal ds) else none

/-- `std::from_chars` into `unsigned int` with the additional requirement that
the entire match text was consumed (`convResult.ptr == end`), as in the revised
implementation of the unnamed source part. -/
def parseUIntFull (str : String) : Option Nat :=
  let ds := str.toList.takeWhile Char.isDigit
  if ds.length = str.toList.length then parseUIntChars str else none

/-- `std::from_chars` into `long`: optional minus sign, then digits; `none` on
a nonzero error code (no digits, or value outside the `long` range). -/
def parseLongChars (str : String) : Option Int :=
  match str.toList with
  | '-' :: rest =>
      let ds := rest.takeWhile Char.isDigit
      if ds.isEmpty then none
      else if LONG_MIN ≤ -(digitsVal ds : Int) then some (-(digitsVal ds : Int)) else none
  | l =>
      let ds := l.takeWhile Char.isDigit
      if ds.isEmpty then none
      else if (digitsVal ds : Int) ≤ LONG_MAX then some (digitsVal ds : Int) else none

/-- `std::from_chars` into `long` requiring full consumption of the match text
(the revised implementation's `ptr == end` check). -/
def parseLongFull (str : String) : Option Int :=
  match str.toList with
  | '-' :: rest =>
      if (rest.takeWhile Char.isDigit).length = rest.length ∧ ¬ rest.isEmpty then
        parseLongChars str
      else none
  | l =>
      if (l.takeWhile Char.isDigit).length = l.length then parseLongChars str else none

/-- `std::string::find(pat) != npos`: `pat` occurs contiguously in `hay`. -/
def strContains (hay pat : String) : Bool :=
  decide (pat.toList.IsInfix hay.toList)

/-! ## Association lists modelling `std::unordered_map` / `std::map`

Keys are unique in a C++ map, so erasure removes every entry with the key and
insertion (`operator[]` assignment) replaces the key's entry.  Iteration order
of the underlying C++ containers is not observable via the operations we model,
so the entry order of the association list is irrelevant. -/

/-- Map lookup (`find`). -/
def alookup {κ ν : Type} [DecidableEq κ] (k : κ) : List (κ × ν) → Option ν
  | [] => none
  | (a, b) :: t => if k = a then some b else alookup k t

/-- Map erase: removes the key's entry. -/
def aerase {κ ν : Type} [DecidableEq κ] (k : κ) (m : List (κ × ν)) : List (κ × ν) :=
  m.filter (fun kv => !decide (kv.1 = k))

/-- Map insert-or-assign (`m[k] = v`). -/
def aupsert {κ ν : Type} [DecidableEq κ] (k : κ) (v : ν) (m : List (κ × ν)) : List (κ × ν) :=
  (k, v) :: aerase k m

/-- `m[k].push_back(i)`: appends `i` to the bucket at `k`, creating the bucket
(as `operator[]` does) when absent. -/
def bucketAdd {κ : Type} [DecidableEq κ] (k : κ) (i : Nat) (m : List (κ × List Nat)) :
    List (κ × List Nat) :=
  aupsert k ((alookup k m).getD [] ++ [i]) m

/-- `some l` when `l` is nonempty, `none` otherwise: the contents of an optional
map bucket under the "no empty buckets are stored" discipline. -/
def optOfNonempty {α : Type} (l : List α) : Option (List α) :=
  if l.isEmpty then none else some l

/-! ## The fixed-schema table (`db::QBTable`, `src/Quickbase.cpp`) -/

/-- State of a `db::QBTable`: the record store, the parallel soft-delete
markers, the primary-key index, the set of secondary-indexed columns and the
generic secondary index keyed by `(column, value)`. -/
structure QBTable where
  records : List QBRecord
  deleted : List Bool
  pkIndex : List (Nat × Nat)
  secCols : List ColumnType
  secIdx : List ((ColumnType × FieldType) × List Nat)
  deriving Repr, Inhabited

namespace QBTable

/-- The freshly constructed table. -/
def init : QBTable := ⟨[], [], [], [], []⟩

/-- `records_[i]` (reads are always guarded by bounds in the C++ sources). -/
def recAt (st : QBTable) (i : Nat) : QBRecord := st.records.getD i default

/-- `deleted_[i]`; out-of-range reads (which the C++ never performs on
well-formed states) default to `true` (treated as deleted). -/
def delAt (st : QBTable) (i : Nat) : Bool := st.deleted.getD i true

/-- The field value of record `r` in column `c`, tagged as an index key. -/
def colKeyOfRec (r : QBRecord) : ColumnType → FieldType
  | .column0 => .u r.column0
  | .column1 => .s r.column1
  | .column2 => .l r.column2
  | .column3 => .s r.column3

/-- `QBTable::getColumnIndexKey`: bounds-checks the slot, returns an empty
string key for deleted slots, otherwise the slot's column value. -/
def getColumnIndexKey (st : QBTable) (recordIdx : Nat) (columnID : ColumnType) : FieldType :=
  if st.records.length ≤ recordIdx then .s ""
  else if st.delAt recordIdx then .s ""
  else colKeyOfRec (st.recAt recordIdx) columnID

/-- `QBTable::rebuildPrimaryKeyIndex`: clears the index, then inserts
`column0 ↦ slot` for every active slot in ascending order (last write wins on
duplicate keys). -/
def rebuildPrimaryKeyIndex (st : QBTable) : QBTable :=
  let pk := (List.range st.records.length).foldl
    (fun m i => if st.delAt i then m else aupsert (st.recAt i).column0 i m) []
  { st with pkIndex := pk }

/-- `QBTable::removeSecondaryIndexForColumn`: erases every secondary-index
entry keyed by the column. -/
def removeSecondaryIndexForColumn (columnID : ColumnType) (st : QBTable) : QBTable :=
  { st with secIdx := st.secIdx.filter (fun kv => !decide (kv.1.1 = columnID)) }

/-- `QBTable::rebuildSecondaryIndexForColumn`: removes the column's entries,
then appends every active slot to the bucket of its column value, in ascending
slot order. -/
def rebuildSecondaryIndexForColumn (columnID : ColumnType) (st : QBTable) : QBTable :=
  let st := removeSecondaryIndexForColumn columnID st
  let m := (List.range st.records.length).foldl
    (fun m i =>
      if st.delAt i then m
      else bucketAdd (columnID, st.getColumnIndexKey i columnID) i m) st.secIdx
  { st with secIdx := m }

/-- `QBTable::createIndex`: no-op on the primary key or an already-indexed
column; otherwise marks the column indexed and rebuilds its index. -/
def createIndex (columnID : ColumnType) (st : QBTable) : QBTable :=
  if columnID = .column0 then st
  else if columnID ∈ st.secCols then st
  else rebuildSecondaryIndexForColumn columnID { st with secCols := st.secCols ++ [columnID] }

/-- `QBTable::dropIndex`: no-op on the primary key; otherwise unmarks the
column and discards its entries. -/
def dropIndex (columnID : ColumnType) (st : QBTable) : QBTable :=
  if columnID = .column0 then st
  else removeSecondaryIndexForColumn columnID
        { st with secCols := st.secCols.filter (fun c => !decide (c = columnID)) }

/-- `QBTable::isColumnIndexed`. -/
def isColumnIndexed (columnID : ColumnType) (st : QBTable) : Bool :=
  columnID = .column0 ∨ columnID ∈ st.secCols

/-- `QBTable::addRecord`: appends the record and an active marker, points the
primary-key index at the new slot, and appends the slot to the bucket of each
currently indexed column. -/
def addRecord (record : QBRecord) (st : QBTable) : QBTable :=
  let idx := st.records.length
  let st1 : QBTable := { st with
    records := st.records ++ [record]
    deleted := st.deleted ++ [false]
    pkIndex := aupsert record.column0 idx st.pkIndex }
  let m := st1.secCols.foldl
    (fun m columnID => bucketAdd (columnID, st1.getColumnIndexKey idx columnID) idx m)
    st1.secIdx
  { st1 with secIdx := m }

/-- Buckets after a soft delete: the slot is removed from every bucket and
buckets that become empty are erased. -/
def removeSlotEverywhere (idx : Nat) (m : List ((ColumnType × FieldType) × List Nat)) :
    List ((ColumnType × FieldType) × List Nat) :=
  (m.map (fun kv => (kv.1, kv.2.filter (fun j => !decide (j = idx))))).filter
    (fun kv => !kv.2.isEmpty)

/-- `QBTable::deleteRecordByID`: resolves the key through the primary-key
index (`false` if absent, or if the slot is already deleted under a soft
request).  A soft delete marks the slot, erases the key from the primary-key
index and removes the slot from every secondary bucket.  A hard delete swaps
the slot with the last one, pops the store, and rebuilds the primary-key index
and every indexed column. -/
def deleteRecordByID (id : Nat) (hardDelete : Bool) (st : QBTable) : Bool × QBTable :=
  match alookup id st.pkIndex with
  | none => (false, st)
  | some recordIdx =>
    if !hardDelete ∧ st.delAt recordIdx then (false, st)
    else if !hardDelete then
      (true, { st with
        deleted := st.deleted.set recordIdx true
        pkIndex := aerase id st.pkIndex
        secIdx := removeSlotEverywhere recordIdx st.secIdx })
    else
      let lastIdx := st.records.length - 1
      let st1 : QBTable := { st with
        records := ((st.records.set recordIdx (st.recAt lastIdx)).set lastIdx
            (st.recAt recordIdx)).dropLast
        deleted := ((st.deleted.set recordIdx (st.delAt lastIdx)).set lastIdx
            (st.delAt recordIdx)).dropLast }
      let st2 := rebuildPrimaryKeyIndex st1
      (true, st2.secCols.foldl (fun s c => rebuildSecondaryIndexForColumn c s) st2)

/-- `QBTable::linearScan`: walks the store in slot order skipping deleted
slots.  The primary key returns the first match immediately; text columns match
by substring; `column2` matches by exact value when the match text parses. -/
def linearScan (st : QBTable) (columnID : ColumnType) (matchString : String) : List QBRecord :=
  go (st.records.zip st.deleted)
where
  go : List (QBRecord × Bool) → List QBRecord
  | [] => []
  | (rec, d) :: rest =>
    if d then go rest
    else
      match columnID with
      | .column0 =>
        match parseUIntChars matchString with
        | some v => if rec.column0 = v then [rec] else go rest
        | none => go rest
      | .column1 =>
        if strContains rec.column1 matchString then rec :: go rest else go rest
      | .column2 =>
        match parseLongChars matchString with
        | some v => if rec.column2 = v then rec :: go rest else go rest
        | none => go rest
      | .column3 =>
        if strContains rec.column3 matchString then rec :: go rest else go rest

/-- `QBTable::findMatching` (`src/Quickbase.cpp`): the primary key parses the
match text (error code only — a numeric prefix suffices) and serves the lookup
from the primary-key index, filtering deleted slots; indexed secondary columns
build a typed key (text columns take the raw text, `column2` parses) and serve
the bucket, filtering deleted slots; unindexed columns fall back to the linear
scan. -/
def findMatching (st : QBTable) (columnID : ColumnType) (matchString : String) :
    List QBRecord :=
  if columnID = .column0 then
    match parseUIntChars matchString with
    | none => []
    | some matchValue =>
      match alookup matchValue st.pkIndex with
      | none => []
      | some i => if !st.delAt i then [st.recAt i] else []
  else if columnID ∈ st.secCols then
    let lookupKey : Option FieldType :=
      match columnID with
      | .column1 | .column3 => some (.s matchString)
      | .column2 => (parseLongChars matchString).map .l
      | .column0 => some (.s matchString)
    match lookupKey with
    | none => []
    | some key =>
      match alookup (columnID, key) st.secIdx with
      | none => []
      | some bucket =>
        bucket.foldr (fun i acc => if !st.delAt i then st.recAt i :: acc else acc) []
  else linearScan st columnID matchString

/-- `QBTable::activeRecordsCount`. -/
def activeRecordsCount (st : QBTable) : Nat :=
  st.deleted.countP (fun d => !d)

/-- `QBTable::totalRecordsCount`. -/
def totalRecordsCount (st : QBTable) : Nat :=
  st.records.length

/-- `QBTable::compactRecords`: keeps only active records (original relative
order), resets all deleted markers, and rebuilds the primary-key index and
every indexed column against the new slot numbering. -/
def compactRecords (st : QBTable) : QBTable :=
  let st1 : QBTable := { st with
    records := ((st.records.zip st.deleted).filter (fun rb => !rb.2)).map Prod.fst
    deleted := List.replicate
      (((st.records.zip st.deleted).filter (fun rb => !rb.2)).map Prod.fst).length false }
  let st2 := rebuildPrimaryKeyIndex st1
  let st3 : QBTable := { st2 with secIdx := [] }
  st3.secCols.foldl (fun s c => rebuildSecondaryIndexForColumn c s) st3

end QBTable

/-! ## The dynamic-schema table (`db::QBTableDynamic`, `src/src/Quickbase_dynamic.cpp`) -/

/-- Dynamic record (`db::QBRecordDynamic`): a primary key plus a map from
column name to field value. -/
structure QBRecordDynamic where
  id : Nat
  fields : List (String × FieldType)
  deriving DecidableEq, Repr, Inhabited

/-- State of a `db::QBTableDynamic`: record store, deleted markers, the set of
declared physical columns, the derived (computed) columns, the primary-key
index, the secondary-indexed column set and the secondary index keyed by
`(column name, value)`. -/
structure QBTableDynamic where
  records : List QBRecordDynamic
  deleted : List Bool
  columns : List String
  derived : List (String × (QBRecordDynamic → FieldType))
  pkIndex : List (Nat × Nat)
  secCols : List String
  secIdx : List ((String × FieldType) × List Nat)

namespace QBTableDynamic

/-- The freshly constructed dynamic table. -/
def init : QBTableDynamic := ⟨[], [], [], [], [], [], []⟩

instance : Inhabited QBTableDynamic := ⟨init⟩

/-- `records_[i]`. -/
def recAt (st : QBTableDynamic) (i : Nat) : QBRecordDynamic := st.records.getD i default

/-- `deleted_[i]`; out-of-range reads default to `true`. -/
def delAt (st : QBTableDynamic) (i : Nat) : Bool := st.deleted.getD i true

/-- `QBTableDynamic::getField`: the record's stored field if present, else the
derived column's function applied to the record; `none` models the
`std::runtime_error("Unknown column")` throw. -/
def getField (st : QBTableDynamic) (recordIdx : Nat) (column : String) : Option FieldType :=
  match alookup column (st.recAt recordIdx).fields with
  | some v => some v
  | none =>
    match alookup column st.derived with
    | some f => some (f (st.recAt recordIdx))
    | none => none

/-- `QBTableDynamic::rebuildPrimaryIndex`. -/
def rebuildPrimaryIndex (st : QBTableDynamic) : QBTableDynamic :=
  let pk := (List.range st.records.length).foldl
    (fun m i => if st.delAt i then m else aupsert (st.recAt i).id i m) []
  { st with pkIndex := pk }

/-- `QBTableDynamic::rebuildSecondaryIndex`: appends every active slot to the
bucket of its (possibly derived) column value.  Unlike the static variant it
does NOT first erase the column's existing entries.  Errors if some active
record resolves neither a stored field nor a derived column. -/
def rebuildSecondaryIndex (column : String) (st : QBTableDynamic) :
    Except DBError QBTableDynamic :=
  let step := fun (acc : Except DBError (List ((String × FieldType) × List Nat))) i =>
    match acc with
    | .error e => .error e
    | .ok m =>
      if st.delAt i then .ok m
      else
        match st.getField i column with
        | none => .error .unknownColumn
        | some v => .ok (bucketAdd (column, v) i m)
  match (List.range st.records.length).foldl step (.ok st.secIdx) with
  | .error e => .error e
  | .ok m => .ok { st with secIdx := m }

/-- `QBTableDynamic::findMatching`: the `"id"` column reads the unsigned
alternative out of the match value (`std::get` faults on any other alternative)
and serves the primary-key index; any column with a live bucket for the value
serves that bucket; otherwise a linear scan compares each active record's
stored field for exact equality with the match value. -/
def findMatching (column : String) (value : FieldType) (st : QBTableDynamic) :
    Except DBError (List QBRecordDynamic) :=
  if column = "id" then
    match value with
    | .u key =>
      match alookup key st.pkIndex with
      | some i => if !st.delAt i then .ok [st.recAt i] else .ok []
      | none => .ok []
    | _ => .error .badVariantGet
  else
    match alookup (column, value) st.secIdx with
    | some bucket =>
      .ok (bucket.foldr (fun i acc => if !st.delAt i then st.recAt i :: acc else acc) [])
    | none =>
      .ok (((st.records.zip st.deleted).filter
        (fun rb => !rb.2 ∧ alookup column rb.1.fields = some value)).map Prod.fst)

/-- Dynamic-variant soft delete of slot `idx`: for each indexed column, removes
the slot from the bucket of the record's value for that column, erasing buckets
that become empty.  Errors if a column value cannot be resolved. -/
def removeSlotFromIndexedColumns (idx : Nat) (st : QBTableDynamic) :
    Except DBError (List ((String × FieldType) × List Nat)) :=
  st.secCols.foldl
    (fun acc column =>
      match acc with
      | .error e => .error e
      | .ok m =>
        match st.getField idx column with
        | none => .error .unknownColumn
        | some value =>
          match alookup (column, value) m with
          | none => .ok m
          | some vec =>
            let vec' := vec.filter (fun j => !decide (j = idx))
            if vec'.isEmpty then .ok (aerase (column, value) m)
            else .ok (aupsert (column, value) vec' m))
    (.ok st.secIdx)

/-- `QBTableDynamic::deleteRecordByID`: mirrors the static variant — resolves
the key through the primary-key index, soft delete marks and unlinks the slot,
hard delete swaps with the last slot, pops, and rebuilds all indexes. -/
def deleteRecordByID (id : Nat) (hardDelete : Bool) (st : QBTableDynamic) :
    Except DBError (Bool × QBTableDynamic) :=
  match alookup id st.pkIndex with
  | none => .ok (false, st)
  | some idx =>
    if !hardDelete ∧ st.delAt idx then .ok (false, st)
    else if !hardDelete then
      match removeSlotFromIndexedColumns idx { st with deleted := st.deleted.set idx true } with
      | .error e => .error e
      | .ok m =>
        .ok (true, { st with
          deleted := st.deleted.set idx true
          pkIndex := aerase id st.pkIndex
          secIdx := m })
    else
      let lastIdx := st.records.length - 1
      let st1 : QBTableDynamic := { st with
        records := if idx = lastIdx then st.records.dropLast else
          ((st.records.set idx (st.recAt lastIdx)).set lastIdx (st.recAt idx)).dropLast
        deleted := if idx = lastIdx then st.deleted.dropLast else
          ((st.deleted.set idx (st.delAt lastIdx)).set lastIdx (st.delAt idx)).dropLast }
      let st2 := rebuildPrimaryIndex st1
      let st3 : QBTableDynamic := { st2 with secIdx := [] }
      match st3.secCols.foldl
        (fun (acc : Except DBError QBTableDynamic) c =>
          match acc with
          | .error e => .error e
          | .ok s => if c = "id" then .ok s else rebuildSecondaryIndex c s)
        (.ok st3) with
      | .error e => .error e
      | .ok st4 => .ok (true, st4)

/-- `QBTableDynamic::addColumn`: fails when the column is already declared;
otherwise declares it and gives every existing record the default value for it
(`emplace`: existing keys are kept). -/
def addColumn (name : String) (defaultValue : FieldType) (st : QBTableDynamic) :
    Bool × QBTableDynamic :=
  if name ∈ st.columns then (false, st)
  else
    (true, { st with
      columns := st.columns ++ [name]
      records := st.records.map (fun r =>
        if (alookup name r.fields).isSome then r
        else { r with fields := r.fields ++ [(name, defaultValue)] }) })

/-- `QBTableDynamic::removeColumn`: undeclares the column, unmarks it as
indexed, erases the single secondary-index entry keyed by the column paired
with a default-constructed `FieldType` (the unsigned alternative holding 0 —
all other buckets of the column are left behind), and strips the field from
every record. -/
def removeColumn (name : String) (st : QBTableDynamic) : QBTableDynamic :=
  { st with
    columns := st.columns.filter (fun c => !decide (c = name))
    secCols := st.secCols.filter (fun c => !decide (c = name))
    secIdx := aerase (name, .u 0) st.secIdx
    records := st.records.map (fun r =>
      { r with fields := r.fields.filter (fun kv => !decide (kv.1 = name)) }) }

/-- `QBTableDynamic::addDerivedColumn`: rejects a name conflicting with a
physical column; otherwise registers (or replaces) the derived function. -/
def addDerivedColumn (name : String) (func : QBRecordDynamic → FieldType)
    (st : QBTableDynamic) : Bool × QBTableDynamic :=
  if name ∈ st.columns then (false, st)
  else (true, { st with derived := aupsert name func st.derived })

/-- `QBTableDynamic::addRecord`: rejects (no mutation) any record carrying a
field whose name is not a declared physical column; otherwise appends the
record, points the primary-key index at the new slot and appends the slot to
every indexed column's bucket (whose value resolution may fault). -/
def addRecord (record : QBRecordDynamic) (st : QBTableDynamic) :
    Except DBError (Bool × QBTableDynamic) :=
  if record.fields.any (fun kv => !(kv.1 ∈ st.columns : Bool)) then .ok (false, st)
  else
    let idx := st.records.length
    let st1 : QBTableDynamic := { st with
      records := st.records ++ [record]
      deleted := st.deleted ++ [false]
      pkIndex := aupsert record.id idx st.pkIndex }
    match st1.secCols.foldl
      (fun (acc : Except DBError (List ((String × FieldType) × List Nat))) col =>
        match acc with
        | .error e => .error e
        | .ok m =>
          match st1.getField idx col with
          | none => .error .unknownColumn
          | some v => .ok (bucketAdd (col, v) idx m))
      (.ok st1.secIdx) with
    | .error e => .error e
    | .ok m => .ok (true, { st1 with secIdx := m })

/-- `QBTableDynamic::createIndex`: errors on a column that is neither physical
nor derived; no-op when already indexed; otherwise marks it indexed and
rebuilds (without clearing stale buckets first). -/
def createIndex (column : String) (st : QBTableDynamic) : Except DBError QBTableDynamic :=
  if ¬ (column ∈ st.columns ∨ (alookup column st.derived).isSome) then
    .error .cannotIndexUnknown
  else if column ∈ st.secCols then .ok st
  else rebuildSecondaryIndex column { st with secCols := st.secCols ++ [column] }

/-- `QBTableDynamic::dropIndex`: throws on the primary-key column `"id"`;
otherwise unmarks the column and erases every entry keyed by it. -/
def dropIndex (column : String) (st : QBTableDynamic) : Except DBError QBTableDynamic :=
  if column = "id" then .error .cannotDropPk
  else
    .ok { st with
      secCols := st.secCols.filter (fun c => !decide (c = column))
      secIdx := st.secIdx.filter (fun kv => !decide (kv.1.1 = column)) }

/-- `QBTableDynamic::activeRecordsCount`. -/
def activeRecordsCount (st : QBTableDynamic) : Nat :=
  st.deleted.countP (fun d => !d)

/-- `QBTableDynamic::totalRecordsCount`. -/
def totalRecordsCount (st : QBTableDynamic) : Nat :=
  st.records.length

/-- `QBTableDynamic::compactRecords`: keeps only active records in order,
resets deleted markers, rebuilds the primary-key index and every indexed
column (starting from a cleared secondary index). -/
def compactRecords (st : QBTableDynamic) : Except DBError QBTableDynamic :=
  let kept := ((st.records.zip st.deleted).filter (fun rb => !rb.2)).map Prod.fst
  let st1 : QBTableDynamic := { st with
    records := kept
    deleted := List.replicate kept.length false }
  let st2 := rebuildPrimaryIndex st1
  let st3 : QBTableDynamic := { st2 with secIdx := [] }
  st3.secCols.foldl
    (fun (acc : Except DBError QBTableDynamic) c =>
      match acc with
      | .error e => .error e
      | .ok s => rebuildSecondaryIndex c s)
    (.ok st3)

end QBTableDynamic

/-! ## The revised static query router (unnamed source part)

The repository's unnamed part carries a revised `QBTable::findMatching` /
`QBTable::linearScan` over the same table state, differing in: numeric match
text must be consumed entirely (`convResult.ptr == end`), the primary-key hit
is returned without a deleted check, a `column2` parse failure aborts the
linear scan immediately, and the scan never matches the primary-key column. -/

namespace QBTable

/-- The unnamed part's `QBTable::linearScan`. -/
def linearScanB (st : QBTable) (columnID : ColumnType) (matchString : String) :
    List QBRecord :=
  go (st.records.zip st.deleted)
where
  go : List (QBRecord × Bool) → List QBRecord
  | [] => []
  | (rec, d) :: rest =>
    if d then go rest
    else
      match columnID with
      | .column0 => go rest
      | .column1 =>
        if strContains rec.column1 matchString then rec :: go rest else go rest
      | .column2 =>
        match parseLongFull matchString with
        | some v => if rec.column2 = v then rec :: go rest else go rest
        | none => []
      | .column3 =>
        if strContains rec.column3 matchString then rec :: go rest else go rest

/-- The unnamed part's `QBTable::findMatching`: full-consumption numeric
parsing on the primary key and on `column2`, and the primary-key hit is pushed
without consulting the deleted markers. -/
def findMatchingB (st : QBTable) (columnID : ColumnType) (matchString : String) :
    List QBRecord :=
  if columnID = .column0 then
    match parseUIntFull matchString with
    | none => []
    | some matchValue =>
      match alookup matchValue st.pkIndex with
      | none => []
      | some i => [st.recAt i]
  else if columnID ∈ st.secCols then
    let lookupKey : Option FieldType :=
      match columnID with
      | .column1 | .column3 => some (.s matchString)
      | .column2 => (parseLongFull matchString).map .l
      | .column0 => some (.s matchString)
    match lookupKey with
    | none => []
    | some key =>
      match alookup (columnID, key) st.secIdx with
      | none => []
      | some bucket =>
        bucket.foldr (fun i acc => if !st.delAt i then st.recAt i :: acc else acc) []
  else linearScanB st columnID matchString

end QBTable

/-! ## Reachability: sequences of public operations -/

/-- A public mutating call on the fixed-schema table. -/
inductive Op where
  | add (r : QBRecord)
  | del (id : Nat) (hard : Bool)
  | mkIdx (c : ColumnType)
  | rmIdx (c : ColumnType)
  | compact

namespace QBTable

/-- One public call on the fixed-schema table. -/
def step (st : QBTable) : Op → QBTable
  | .add r => addRecord r st
  | .del k h => (deleteRecordByID k h st).2
  | .mkIdx c => createIndex c st
  | .rmIdx c => dropIndex c st
  | .compact => compactRecords st

/-- The state after running a sequence of public calls on a fresh table. -/
def run (ops : List Op) : QBTable := ops.foldl step init

end QBTable

/-- A public mutating call on the dynamic-schema table. -/
inductive OpD where
  | addCol (name : String) (dflt : FieldType)
  | rmCol (name : String)
  | addDerived (name : String) (f : QBRecordDynamic → FieldType)
  | add (r : QBRecordDynamic)
  | del (id : Nat) (hard : Bool)
  | mkIdx (c : String)
  | rmIdx (c : String)
  | compact

namespace QBTableDynamic

/-- One public call on the dynamic-schema table; `none` when the C++ call
throws. -/
def stepD (st : QBTableDynamic) : OpD → Option QBTableDynamic
  | .addCol n d => some (addColumn n d st).2
  | .rmCol n => some (removeColumn n st)
  | .addDerived n f => some (addDerivedColumn n f st).2
  | .add r => (addRecord r st).toOption.map (·.2)
  | .del k h => (deleteRecordByID k h st).toOption.map (·.2)
  | .mkIdx c => (createIndex c st).toOption
  | .rmIdx c => (dropIndex c st).toOption
  | .compact => (compactRecords st).toOption

/-- The state after a sequence of successful public calls on a fresh dynamic
table (`none` if any call throws). -/
def runD (ops : List OpD) : Option QBTableDynamic :=
  ops.foldl (fun acc op => acc.bind (fun st => stepD st op)) (some init)

end QBTableDynamic

/-! ## Derived notions used in statements and invariants -/

namespace QBTable

/-- Slots below `n` that are active and whose column value equals `key`,
ascending. -/
def canonUpTo (st : QBTable) (c : ColumnType) (key : FieldType) (n : Nat) : List Nat :=
  (List.range n).filter (fun i => !(st.delAt i) && decide (st.getColumnIndexKey i c = key))

/-- The slots a consistent bucket for `(c, key)` must hold: every active slot
whose column `c` value equals `key`, in ascending slot order. -/
def canonical (st : QBTable) (c : ColumnType) (key : FieldType) : List Nat :=
  canonUpTo st c key st.records.length

/-- Well-formedness of a fixed-schema table state: parallel store lengths, a
sound primary-key index with unique keys, no secondary index on the primary
key, and secondary buckets that hold exactly the active slots matching their
key (empty buckets pruned). -/
structure Inv (st : QBTable) : Prop where
  lenEq : st.deleted.length = st.records.length
  pkKeysNodup : (st.pkIndex.map Prod.fst).Nodup
  pkSound : ∀ k i, alookup k st.pkIndex = some i →
    i < st.records.length ∧ st.delAt i = false ∧ (st.recAt i).column0 = k
  secColsNodup : st.secCols.Nodup
  pkNotSec : ColumnType.column0 ∉ st.secCols
  secKeysNodup : (st.secIdx.map Prod.fst).Nodup
  secSound : ∀ c key, alookup (c, key) st.secIdx =
    if c ∈ st.secCols then optOfNonempty (canonical st c key) else none

/-- All active records in slot order. -/
def activeRecords (st : QBTable) : List QBRecord :=
  ((st.records.zip st.deleted).filter (fun rb => !rb.2)).map Prod.fst

/-- Exact-match scan of a text column over the active records: what an indexed
text-column query returns (spec §4.4's documented asymmetry). -/
def exactTextScan (st : QBTable) (f : QBRecord → String) (s : String) : List QBRecord :=
  ((st.records.zip st.deleted).filter (fun rb => !rb.2 && decide (f rb.1 = s))).map Prod.fst

/-- Substring scan of a text column over the active records: what an unindexed
text-column query returns. -/
def substrTextScan (st : QBTable) (f : QBRecord → String) (s : String) : List QBRecord :=
  ((st.records.zip st.deleted).filter (fun rb => !rb.2 && strContains (f rb.1) s)).map Prod.fst

/-- Exact-value scan of `column2` over the active records. -/
def exactNumScan (st : QBTable) (v : Int) : List QBRecord :=
  ((st.records.zip st.deleted).filter
    (fun rb => !rb.2 && decide (rb.1.column2 = v))).map Prod.fst

/-- At most one active record holds any given primary-key value. -/
def PKUniqueAmongActive (st : QBTable) : Prop :=
  ∀ i j, i < st.records.length → j < st.records.length →
    st.delAt i = false → st.delAt j = false →
    (st.recAt i).column0 = (st.recAt j).column0 → i = j

end QBTable

/-- The primary keys passed to `addRecord` along a call sequence. -/
def Op.addedPK : Op → List Nat
  | .add r => [r.column0]
  | _ => []

/-- All primary keys passed to `addRecord` along a call sequence. -/
def addedPKs (ops : List Op) : List Nat :=
  (ops.map Op.addedPK).join

namespace QBTableDynamic

/-- Exact-equality scan of the dynamic store: the records whose stored field
for `c` equals `v`, among active slots, in slot order. -/
def dynExactScan (st : QBTableDynamic) (c : String) (v : FieldType) : List QBRecordDynamic :=
  ((st.records.zip st.deleted).filter
    (fun rb => !rb.2 ∧ alookup c rb.1.fields = some v)).map Prod.fst

/-- At most one active dynamic record holds any given id. -/
def PKUniqueAmongActiveD (st : QBTableDynamic) : Prop :=
  ∀ i j, i < st.records.length → j < st.records.length →
    st.delAt i = false → st.delAt j = false →
    (st.recAt i).id = (st.recAt j).id → i = j

/-- The slots a consistent dynamic bucket for `(c, v)` must hold: every active
slot whose stored-or-derived value for `c` is `v`, in ascending slot order. -/
def canonicalD (st : QBTableDynamic) (c : String) (v : FieldType) : List Nat :=
  (List.range st.records.length).filter
    (fun i => !(st.delAt i) && decide (st.getField i c = some v))


end QBTableDynamic

/-- The ids passed to `addRecord` along a dynamic call sequence. -/
def OpD.addedId : OpD → List Nat
  | .add r => [r.id]
  | _ => []

/-- All ids passed to `addRecord` along a dynamic call sequence. -/
def addedIdsD (ops : List OpD) : List Nat :=
  (ops.map OpD.addedId).join

/-- Concrete two-record table used to witness C4. -/
def c4St : QBTable := QBTable.run [.add ⟨1, "a", 2, "b"⟩, .add ⟨2, "c", 3, "d"⟩]

/-- Concrete two-record dynamic table used to witness C4. -/
def c4StD : QBTableDynamic :=
  { QBTableDynamic.init with
    columns := ["a"]
    records := [⟨1, [("a", .u 0)]⟩, ⟨2, [("a", .u 1)]⟩]
    deleted := [false, false]
    pkIndex := [(1, 0), (2, 1)] }

/-- Concrete static table used to witness C7: an index on `column1`, two
records, the first soft-deleted. -/
def c7St : QBTable := QBTable.run
  [.mkIdx .column1, .add ⟨1, "a", 2, "b"⟩, .add ⟨2, "a", 3, "d"⟩, .del 1 false]

/-- Concrete dynamic table used to witness C7: two records, the first
soft-deleted, with a secondary index on the stored column. -/
def c7StD : QBTableDynamic :=
  { QBTableDynamic.init with
    columns := ["a"]
    records := [⟨1, [("a", .u 0)]⟩, ⟨2, [("a", .u 1)]⟩]
    deleted := [true, false]
    pkIndex := [(2, 1)]
    secCols := ["a"]
    secIdx := [(("a", .u 1), [1])] }

/-- The dynamic table `c7StD` after compaction. -/
def c7StDC : QBTableDynamic :=
  { QBTableDynamic.init with
    columns := ["a"]
    records := [⟨2, [("a", .u 1)]⟩]
    deleted := [false]
    pkIndex := [(2, 0)]
    secCols := ["a"]
    secIdx := [(("a", .u 1), [0])] }

/-- Concrete dynamic call sequence used to witness C1: one text column and two
records with distinct ids. -/
def c1OpsD : List OpD :=
  [.addCol "a" (.s ""), .add ⟨1, [("a", .s "x")]⟩, .add ⟨2, [("a", .s "y")]⟩]

/-- The dynamic table reached by `c1OpsD`. -/
def c1StD : QBTableDynamic :=
  { records := [⟨1, [("a", .s "x")]⟩, ⟨2, [("a", .s "y")]⟩]
    deleted := [false, false]
    columns := ["a"]
    derived := []
    pkIndex := [(2, 1), (1, 0)]
    secCols := []
    secIdx := [] }

/-- Derived-column function of the C2 counterexample: every record derives the
value `3u`. -/
def c2Derived : QBRecordDynamic → FieldType := fun _ => .u 3

/-- Concrete static call sequence used to witness C2: all three secondary
columns indexed, two records. -/
def c2Ops : List Op :=
  [.mkIdx .column1, .mkIdx .column2, .mkIdx .column3,
   .add ⟨1, "a", 2, "b"⟩, .add ⟨2, "c", 3, "d"⟩]

/-- Dynamic call sequence of the C2 counterexample: a stored column, one
record, a derived column, then an index on the derived column. -/
def c2OpsD : List OpD :=
  [.addCol "a" (.s ""), .add ⟨1, [("a", .s "x")]⟩,
   .addDerived "len" c2Derived, .mkIdx "len"]

/-- The dynamic table reached by `c2OpsD`. -/
def c2StD : QBTableDynamic :=
  { records := [⟨1, [("a", .s "x")]⟩]
    deleted := [false]
    columns := ["a"]
    derived := [("len", c2Derived)]
    pkIndex := [(1, 0)]
    secCols := ["len"]
    secIdx := [(("len", .u 3), [0])] }

/-- `c2StD` after dropping the derived column's index. -/
def c2StDrop : QBTableDynamic :=
  { records := [⟨1, [("a", .s "x")]⟩]
    deleted := [false]
    columns := ["a"]
    derived := [("len", c2Derived)]
    pkIndex := [(1, 0)]
    secCols := []
    secIdx := [] }




/-! ## Association-list map lemmas -/

section AssocLemmas

variable {κ ν : Type} [DecidableEq κ]

theorem alookup_aerase_self (k : κ) (m : List (κ × ν)) : alookup k (aerase k m) = none := by
  induction m with
  | nil => rfl
  | cons kv t ih =>
    obtain ⟨a, b⟩ := kv
    by_cases h : a = k
    · simpa [aerase, h] using ih
    · simpa [aerase, alookup, h, Ne.symm h] using ih

theorem alookup_aerase_ne {k k' : κ} (h : k' ≠ k) (m : List (κ × ν)) :
    alookup k' (aerase k m) = alookup k' m := by
  induction m with
  | nil => rfl
  | cons kv t ih =>
    obtain ⟨a, b⟩ := kv
    by_cases hk : a = k
    · have h2 : k' ≠ a := fun e => h (e.trans hk)
      simp [aerase, hk, alookup, h2, h] at ih ⊢
      exact ih
    · by_cases hk' : k' = a <;> simp [aerase, hk, alookup, hk'] at ih ⊢ <;> exact ih

theorem alookup_aupsert_self (k : κ) (v : ν) (m : List (κ × ν)) :
    alookup k (aupsert k v m) = some v := by
  simp [aupsert, alookup]

theorem alookup_aupsert_ne {k k' : κ} (h : k' ≠ k) (v : ν) (m : List (κ × ν)) :
    alookup k' (aupsert k v m) = alookup k' m := by
  simp [aupsert, alookup, h, alookup_aerase_ne h]

theorem alookup_bucketAdd_self (k : κ) (i : Nat) (m : List (κ × List Nat)) :
    alookup k (bucketAdd k i m) = some ((alookup k m).getD [] ++ [i]) :=
  alookup_aupsert_self ..

theorem alookup_bucketAdd_ne {k k' : κ} (h : k' ≠ k) (i : Nat) (m : List (κ × List Nat)) :
    alookup k' (bucketAdd k i m) = alookup k' m :=
  alookup_aupsert_ne h ..

theorem keys_aerase_sublist (k : κ) (m : List (κ × ν)) :
    List.Sublist ((aerase k m).map Prod.fst) (m.map Prod.fst) :=
  ((List.filter_sublist m).map Prod.fst)

theorem keys_aupsert_nodup {k : κ} {v : ν} {m : List (κ × ν)}
    (h : (m.map Prod.fst).Nodup) : ((aupsert k v m).map Prod.fst).Nodup := by
  refine List.Nodup.cons ?_ ((keys_aerase_sublist k m).nodup h)
  intro hmem
  rcases List.mem_map.mp hmem with ⟨kv, hkv, hfst⟩
  rcases List.mem_filter.mp hkv with ⟨_, hne⟩
  exact (by simpa using hne : kv.1 ≠ k) hfst

theorem keys_bucketAdd_nodup {k : κ} {i : Nat} {m : List (κ × List Nat)}
    (h : (m.map Prod.fst).Nodup) : ((bucketAdd k i m).map Prod.fst).Nodup :=
  keys_aupsert_nodup h

/-- Filtering away one first-component value kills the lookups keyed by it. -/
theorem alookup_filter_fst_ne {ν₂ : Type} [DecidableEq ν₂] {c : κ}
    (m : List ((κ × ν₂) × ν)) (k : κ × ν₂) (hk : k.1 = c) :
    alookup k (m.filter (fun kv => !decide (kv.1.1 = c))) = none := by
  induction m with
  | nil => rfl
  | cons kv t ih =>
    obtain ⟨a, b⟩ := kv
    by_cases h : a.1 = c
    · simpa [h] using ih
    · have hne : k ≠ a := fun e => h (e ▸ hk)
      simpa [h, alookup, hne] using ih

/-- Filtering away one first-component value keeps the other lookups. -/
theorem alookup_filter_fst_same {ν₂ : Type} [DecidableEq ν₂] {c : κ}
    (m : List ((κ × ν₂) × ν)) (k : κ × ν₂) (hk : k.1 ≠ c) :
    alookup k (m.filter (fun kv => !decide (kv.1.1 = c))) = alookup k m := by
  induction m with
  | nil => rfl
  | cons kv t ih =>
    obtain ⟨a, b⟩ := kv
    by_cases h : a.1 = c
    · have hne : k ≠ a := fun e => hk (e ▸ h)
      simp [h, alookup, hne] at ih ⊢
      exact ih
    · by_cases hke : k = a <;> simp [h, alookup, hke] at ih ⊢ <;> exact ih

end AssocLemmas

/-! ## General helper lemmas -/

theorem optOfNonempty_nil {α : Type} : optOfNonempty ([] : List α) = none := rfl

theorem optOfNonempty_of_ne_nil {α : Type} {l : List α} (h : l ≠ []) :
    optOfNonempty l = some l := by
  simp [optOfNonempty, h]

theorem alookup_eq_none_of_not_mem {κ ν : Type} [DecidableEq κ] {k : κ} {m : List (κ × ν)}
    (h : k ∉ m.map Prod.fst) : alookup k m = none := by
  induction m with
  | nil => rfl
  | cons kv t ih =>
    obtain ⟨a, b⟩ := kv
    simp only [List.map_cons, List.mem_cons, not_or] at h
    simp [alookup, h.1, ih h.2]

namespace QBTable

theorem keys_removeSlotEverywhere_sublist (idx : Nat)
    (m : List ((ColumnType × FieldType) × List Nat)) :
    List.Sublist ((removeSlotEverywhere idx m).map Prod.fst) (m.map Prod.fst) := by
  have h1 : List.Sublist ((removeSlotEverywhere idx m).map Prod.fst)
      ((m.map (fun kv => (kv.1, kv.2.filter (fun j => !decide (j = idx))))).map Prod.fst) :=
    (List.filter_sublist _).map Prod.fst
  rwa [List.map_map] at h1

theorem removeSlotEverywhere_cons (idx : Nat) (a : ColumnType × FieldType) (v : List Nat)
    (t : List ((ColumnType × FieldType) × List Nat)) :
    removeSlotEverywhere idx ((a, v) :: t)
      = if (v.filter (fun j => !decide (j = idx))).isEmpty then removeSlotEverywhere idx t
        else (a, v.filter (fun j => !decide (j = idx))) :: removeSlotEverywhere idx t := by
  unfold removeSlotEverywhere
  rw [List.map_cons, List.filter_cons]
  by_cases hv : (v.filter (fun j => !decide (j = idx))).isEmpty
  · rw [if_neg (by rw [hv]; simp), if_pos hv]
  · have hv' : (v.filter (fun j => !decide (j = idx))).isEmpty = false :=
      Bool.eq_false_iff.mpr hv
    rw [if_pos (by rw [hv']; simp), if_neg (by rw [hv']; simp)]

theorem alookup_removeSlotEverywhere_none {k : ColumnType × FieldType} {idx : Nat}
    {m : List ((ColumnType × FieldType) × List Nat)} (h : alookup k m = none) :
    alookup k (removeSlotEverywhere idx m) = none := by
  induction m with
  | nil => rfl
  | cons kv t ih =>
    obtain ⟨a, v⟩ := kv
    by_cases hk : k = a
    · simp [alookup, hk] at h
    · simp only [alookup, if_neg hk] at h
      rw [removeSlotEverywhere_cons]
      by_cases hv : (v.filter (fun j => !decide (j = idx))).isEmpty
      · rw [if_pos hv]; exact ih h
      · rw [if_neg hv]
        simp only [alookup, if_neg hk]
        exact ih h

theorem alookup_removeSlotEverywhere {k : ColumnType × FieldType} (idx : Nat)
    {m : List ((ColumnType × FieldType) × List Nat)} (hnd : (m.map Prod.fst).Nodup) :
    alookup k (removeSlotEverywhere idx m) =
      match alookup k m with
      | none => none
      | some v => optOfNonempty (v.filter (fun j => !decide (j = idx))) := by
  induction m with
  | nil => rfl
  | cons kv t ih =>
    obtain ⟨a, v⟩ := kv
    simp only [List.map_cons, List.nodup_cons] at hnd
    rw [removeSlotEverywhere_cons]
    by_cases hk : k = a
    · subst hk
      have ht : alookup k t = none := alookup_eq_none_of_not_mem hnd.1
      by_cases hv : (v.filter (fun j => !decide (j = idx))).isEmpty
      · rw [if_pos hv]
        have h1 : optOfNonempty (v.filter (fun j => !decide (j = idx))) = none := by
          simp [optOfNonempty, hv]
        simp [alookup, h1, @alookup_removeSlotEverywhere_none k idx t ht]
      · rw [if_neg hv]
        simp [alookup, optOfNonempty, hv]
    · by_cases hv : (v.filter (fun j => !decide (j = idx))).isEmpty
      · rw [if_pos hv]
        simp only [alookup, if_neg hk]
        exact ih hnd.2
      · rw [if_neg hv]
        simp only [alookup, if_neg hk]
        exact ih hnd.2

/-- Serving a bucket whose slots are all active lists exactly the bucket's
records. -/
theorem foldr_bucket_eq_map (st : QBTable) (l : List Nat)
    (h : ∀ i ∈ l, st.delAt i = false) :
    l.foldr (fun i acc => if !st.delAt i then st.recAt i :: acc else acc) []
      = l.map st.recAt := by
  induction l with
  | nil => rfl
  | cons i t ih =>
    have hi := h i (List.mem_cons_self i t)
    have ht := ih fun j hj => h j (List.mem_cons_of_mem i hj)
    simp only [List.foldr_cons, hi, Bool.not_false, if_true, ht, List.map_cons]

end QBTable

/-- Bridge between slot-index enumeration and direct traversal: filtering the
slot range by activeness plus a record predicate and reading the records off is
the same as filtering the zipped store. -/
theorem range_filter_map_getD {α : Type} (R : List α) (D : List Bool)
    (p : α → Bool) (d : α) (hlen : D.length = R.length) :
    ((List.range R.length).filter
        (fun i => !(D.getD i true) && p (R.getD i d))).map (fun i => R.getD i d)
      = ((R.zip D).filter (fun rb => !rb.2 && p rb.1)).map Prod.fst := by
  induction R generalizing D with
  | nil => simp
  | cons a R' ih =>
    cases D with
    | nil => simp at hlen
    | cons b D' =>
      have hlen' : D'.length = R'.length := by simpa using hlen
      have IH := ih D' hlen'
      have hcomp :
          List.filter ((fun i => !((b :: D').getD i true) && p ((a :: R').getD i d)) ∘ Nat.succ)
            (List.range R'.length)
          = List.filter (fun i => !(D'.getD i true) && p (R'.getD i d))
            (List.range R'.length) :=
        List.filter_congr (fun i _ => by
          simp [Function.comp, Nat.succ_eq_add_one, List.getD_cons_succ])
      show (List.map (fun i => (a :: R').getD i d)
        (List.filter (fun i => !((b :: D').getD i true) && p ((a :: R').getD i d))
          (List.range (R'.length + 1)))) = _
      rw [List.range_succ_eq_map, List.filter_cons, List.filter_map, hcomp,
        apply_ite (List.map (fun i => (a :: R').getD i d))]
      simp only [List.map_cons, List.map_map, List.getD_cons_zero]
      have hmap :
          List.map ((fun i => (a :: R').getD i d) ∘ Nat.succ)
            (List.filter (fun i => !(D'.getD i true) && p (R'.getD i d)) (List.range R'.length))
          = List.map (fun i => R'.getD i d)
            (List.filter (fun i => !(D'.getD i true) && p (R'.getD i d)) (List.range R'.length)) :=
        List.map_congr_left (fun i _ => by
          simp [Function.comp, Nat.succ_eq_add_one, List.getD_cons_succ])
      rw [hmap, IH, List.zip_cons_cons, List.filter_cons]
      by_cases hb : (!b && p a) = true
      · rw [if_pos hb, if_pos hb, List.map_cons]
      · rw [if_neg hb, if_neg hb]

/-! ## Linear-scan characterizations -/

namespace QBTable

theorem linearScan_go_column1 (s : String) (l : List (QBRecord × Bool)) :
    linearScan.go .column1 s l
      = (l.filter (fun rb => !rb.2 && strContains rb.1.column1 s)).map Prod.fst := by
  induction l with
  | nil => rfl
  | cons rb t ih =>
    obtain ⟨r, d⟩ := rb
    by_cases hd : d
    · simp [linearScan.go, hd, ih]
    · by_cases hm : strContains r.column1 s <;> simp [linearScan.go, hd, hm, ih]

theorem linearScan_go_column3 (s : String) (l : List (QBRecord × Bool)) :
    linearScan.go .column3 s l
      = (l.filter (fun rb => !rb.2 && strContains rb.1.column3 s)).map Prod.fst := by
  induction l with
  | nil => rfl
  | cons rb t ih =>
    obtain ⟨r, d⟩ := rb
    by_cases hd : d
    · simp [linearScan.go, hd, ih]
    · by_cases hm : strContains r.column3 s <;> simp [linearScan.go, hd, hm, ih]

theorem linearScan_go_column2_none (s : String) (hs : parseLongChars s = none)
    (l : List (QBRecord × Bool)) : linearScan.go .column2 s l = [] := by
  induction l with
  | nil => rfl
  | cons rb t ih =>
    obtain ⟨r, d⟩ := rb
    by_cases hd : d <;> simp [linearScan.go, hd, hs, ih]

theorem linearScan_go_column2_some (s : String) (v : Int) (hs : parseLongChars s = some v)
    (l : List (QBRecord × Bool)) :
    linearScan.go .column2 s l
      = (l.filter (fun rb => !rb.2 && decide (rb.1.column2 = v))).map Prod.fst := by
  induction l with
  | nil => rfl
  | cons rb t ih =>
    obtain ⟨r, d⟩ := rb
    by_cases hd : d
    · simp [linearScan.go, hd, ih]
    · by_cases hm : r.column2 = v <;> simp [linearScan.go, hd, hs, hm, ih]

end QBTable

/-! ## Rebuild-loop characterizations -/

namespace QBTable

theorem optOfNonempty_getD {α : Type} (l : List α) : (optOfNonempty l).getD [] = l := by
  by_cases h : l.isEmpty
  · simp [optOfNonempty, h, List.isEmpty_iff.mp h]
  · simp [optOfNonempty, h]

theorem canonUpTo_succ (st : QBTable) (c : ColumnType) (key : FieldType) (n : Nat) :
    canonUpTo st c key (n + 1)
      = canonUpTo st c key n
        ++ (if !(st.delAt n) && decide (st.getColumnIndexKey n c = key) then [n] else []) := by
  unfold canonUpTo
  rw [List.range_succ, List.filter_append]
  by_cases h : !(st.delAt n) && decide (st.getColumnIndexKey n c = key) <;> simp [h]

/-- Effect of the secondary-index rebuild loop on the rebuilt column's
buckets. -/
theorem secFold_lookup (st : QBTable) (c : ColumnType) (key : FieldType) :
    ∀ (n : Nat) (m : List ((ColumnType × FieldType) × List Nat)),
    alookup (c, key)
      ((List.range n).foldl
        (fun m i => if st.delAt i then m
          else bucketAdd (c, st.getColumnIndexKey i c) i m) m)
      = match alookup (c, key) m with
        | none => optOfNonempty (canonUpTo st c key n)
        | some b => some (b ++ canonUpTo st c key n) := by
  intro n
  induction n with
  | zero =>
    intro m
    cases h : alookup (c, key) m <;> simp [canonUpTo, h, optOfNonempty]
  | succ n ih =>
    intro m
    rw [List.range_succ, List.foldl_append, List.foldl_cons, List.foldl_nil,
      canonUpTo_succ]
    by_cases hd : st.delAt n
    · rw [if_pos hd, ih m]
      cases h : alookup (c, key) m <;> simp [h, hd]
    · rw [if_neg hd]
      by_cases hk : st.getColumnIndexKey n c = key
      · rw [hk, alookup_bucketAdd_self, ih m]
        have hd' : st.delAt n = false := Bool.eq_false_iff.mpr hd
        cases h : alookup (c, key) m
        · simp only [h]
          rw [optOfNonempty_getD]
          simp [hd', optOfNonempty]
        · simp only [h, Option.getD_some]
          simp [hd', List.append_assoc]
      · have hne : (c, key) ≠ (c, st.getColumnIndexKey n c) := by
          intro e
          exact hk (congrArg Prod.snd e).symm
        rw [alookup_bucketAdd_ne hne, ih m]
        cases h : alookup (c, key) m <;> simp [h, hk]

/-- The rebuild loop does not touch other columns' buckets. -/
theorem secFold_lookup_other (st : QBTable) (c : ColumnType) {c' : ColumnType}
    (key' : FieldType) (hc : c' ≠ c) :
    ∀ (n : Nat) (m : List ((ColumnType × FieldType) × List Nat)),
    alookup (c', key')
      ((List.range n).foldl
        (fun m i => if st.delAt i then m
          else bucketAdd (c, st.getColumnIndexKey i c) i m) m)
      = alookup (c', key') m := by
  intro n
  induction n with
  | zero => intro m; rfl
  | succ n ih =>
    intro m
    rw [List.range_succ, List.foldl_append, List.foldl_cons, List.foldl_nil]
    by_cases hd : st.delAt n
    · rw [if_pos hd, ih m]
    · rw [if_neg hd]
      have hne : (c', key') ≠ (c, st.getColumnIndexKey n c) := by
        intro e
        exact hc (congrArg Prod.fst e)
      rw [alookup_bucketAdd_ne hne, ih m]

/-- The rebuild loop preserves key uniqueness of the bucket map. -/
theorem secFold_keys_nodup (st : QBTable) (c : ColumnType) :
    ∀ (n : Nat) (m : List ((ColumnType × FieldType) × List Nat)),
    (m.map Prod.fst).Nodup →
    (((List.range n).foldl
        (fun m i => if st.delAt i then m
          else bucketAdd (c, st.getColumnIndexKey i c) i m) m).map Prod.fst).Nodup := by
  intro n
  induction n with
  | zero => intro m h; exact h
  | succ n ih =>
    intro m h
    rw [List.range_succ, List.foldl_append, List.foldl_cons, List.foldl_nil]
    by_cases hd : st.delAt n
    · rw [if_pos hd]; exact ih m h
    · rw [if_neg hd]; exact keys_bucketAdd_nodup (ih m h)

end QBTable

/-! ## Rebuild characterizations for whole-index rebuilds -/

namespace QBTable

theorem removeSecondaryIndexForColumn_records (c : ColumnType) (st : QBTable) :
    (removeSecondaryIndexForColumn c st).records = st.records := rfl

theorem rebuildCol_records (c : ColumnType) (st : QBTable) :
    (rebuildSecondaryIndexForColumn c st).records = st.records := rfl

theorem rebuildCol_deleted (c : ColumnType) (st : QBTable) :
    (rebuildSecondaryIndexForColumn c st).deleted = st.deleted := rfl

theorem rebuildCol_pkIndex (c : ColumnType) (st : QBTable) :
    (rebuildSecondaryIndexForColumn c st).pkIndex = st.pkIndex := rfl

theorem rebuildCol_secCols (c : ColumnType) (st : QBTable) :
    (rebuildSecondaryIndexForColumn c st).secCols = st.secCols := rfl

theorem canonical_rebuildCol (c c' : ColumnType) (st : QBTable) (key : FieldType) :
    canonical (rebuildSecondaryIndexForColumn c st) c' key = canonical st c' key := rfl

theorem rebuildCol_secIdx_self (st : QBTable) (c : ColumnType) (key : FieldType) :
    alookup (c, key) (rebuildSecondaryIndexForColumn c st).secIdx
      = optOfNonempty (canonical st c key) := by
  show alookup (c, key)
      ((List.range (removeSecondaryIndexForColumn c st).records.length).foldl
        (fun m i => if (removeSecondaryIndexForColumn c st).delAt i then m
          else bucketAdd (c, (removeSecondaryIndexForColumn c st).getColumnIndexKey i c) i m)
        (removeSecondaryIndexForColumn c st).secIdx)
      = optOfNonempty (canonical st c key)
  rw [secFold_lookup]
  have h0 : alookup (c, key) (removeSecondaryIndexForColumn c st).secIdx = none :=
    alookup_filter_fst_ne st.secIdx (c, key) rfl
  rw [h0]
  rfl

theorem rebuildCol_secIdx_other (st : QBTable) {c c' : ColumnType} (hc : c' ≠ c)
    (key' : FieldType) :
    alookup (c', key') (rebuildSecondaryIndexForColumn c st).secIdx
      = alookup (c', key') st.secIdx := by
  show alookup (c', key')
      ((List.range (removeSecondaryIndexForColumn c st).records.length).foldl
        (fun m i => if (removeSecondaryIndexForColumn c st).delAt i then m
          else bucketAdd (c, (removeSecondaryIndexForColumn c st).getColumnIndexKey i c) i m)
        (removeSecondaryIndexForColumn c st).secIdx)
      = alookup (c', key') st.secIdx
  rw [secFold_lookup_other _ _ _ hc]
  exact alookup_filter_fst_same st.secIdx (c', key') hc

theorem rebuildCol_keys_nodup (st : QBTable) (c : ColumnType)
    (h : (st.secIdx.map Prod.fst).Nodup) :
    ((rebuildSecondaryIndexForColumn c st).secIdx.map Prod.fst).Nodup := by
  refine secFold_keys_nodup _ _ _ _ ?_
  exact ((List.filter_sublist st.secIdx).map Prod.fst).nodup h

theorem pkFold_sound_aux (st : QBTable) :
    ∀ (n : Nat), n ≤ st.records.length →
    ∀ (m : List (Nat × Nat)),
    (∀ k i, alookup k m = some i →
      i < st.records.length ∧ st.delAt i = false ∧ (st.recAt i).column0 = k) →
    ∀ k i,
      alookup k ((List.range n).foldl
        (fun m i => if st.delAt i then m else aupsert (st.recAt i).column0 i m) m) = some i →
      i < st.records.length ∧ st.delAt i = false ∧ (st.recAt i).column0 = k := by
  intro n
  induction n with
  | zero => intro _ m hm; exact hm
  | succ n ih =>
    intro hn m hm k i
    rw [List.range_succ, List.foldl_append, List.foldl_cons, List.foldl_nil]
    by_cases hd : st.delAt n
    · rw [if_pos hd]
      exact ih (Nat.le_of_succ_le hn) m hm k i
    · rw [if_neg hd]
      by_cases hk : k = (st.recAt n).column0
      · subst hk
        rw [alookup_aupsert_self]
        intro hi
        cases hi
        exact ⟨Nat.lt_of_succ_le hn, Bool.eq_false_iff.mpr hd, rfl⟩
      · rw [alookup_aupsert_ne hk]
        exact ih (Nat.le_of_succ_le hn) m hm k i

theorem pkFold_keys_nodup (st : QBTable) :
    ∀ (n : Nat) (m : List (Nat × Nat)), (m.map Prod.fst).Nodup →
    (((List.range n).foldl
        (fun m i => if st.delAt i then m else aupsert (st.recAt i).column0 i m) m).map
      Prod.fst).Nodup := by
  intro n
  induction n with
  | zero => intro m h; exact h
  | succ n ih =>
    intro m h
    rw [List.range_succ, List.foldl_append, List.foldl_cons, List.foldl_nil]
    by_cases hd : st.delAt n
    · rw [if_pos hd]; exact ih m h
    · rw [if_neg hd]; exact keys_aupsert_nodup (ih m h)

theorem rebuildPK_records (st : QBTable) :
    (rebuildPrimaryKeyIndex st).records = st.records := rfl

theorem rebuildPK_deleted (st : QBTable) :
    (rebuildPrimaryKeyIndex st).deleted = st.deleted := rfl

theorem rebuildPK_secCols (st : QBTable) :
    (rebuildPrimaryKeyIndex st).secCols = st.secCols := rfl

theorem rebuildPK_secIdx (st : QBTable) :
    (rebuildPrimaryKeyIndex st).secIdx = st.secIdx := rfl

theorem rebuildPK_sound (st : QBTable) :
    ∀ k i, alookup k (rebuildPrimaryKeyIndex st).pkIndex = some i →
      i < st.records.length ∧ st.delAt i = false ∧ (st.recAt i).column0 = k := by
  intro k i
  exact pkFold_sound_aux st st.records.length (Nat.le_refl _) []
    (by intro k i h; cases h) k i

theorem rebuildPK_keys_nodup (st : QBTable) :
    ((rebuildPrimaryKeyIndex st).pkIndex.map Prod.fst).Nodup :=
  pkFold_keys_nodup st st.records.length [] List.nodup_nil

theorem rebuildCols_records (cols : List ColumnType) (st : QBTable) :
    ((cols.foldl (fun s c => rebuildSecondaryIndexForColumn c s) st)).records
      = st.records := by
  induction cols generalizing st with
  | nil => rfl
  | cons c rest ih => exact ih (rebuildSecondaryIndexForColumn c st)

theorem rebuildCols_deleted (cols : List ColumnType) (st : QBTable) :
    ((cols.foldl (fun s c => rebuildSecondaryIndexForColumn c s) st)).deleted
      = st.deleted := by
  induction cols generalizing st with
  | nil => rfl
  | cons c rest ih => exact ih (rebuildSecondaryIndexForColumn c st)

theorem rebuildCols_pkIndex (cols : List ColumnType) (st : QBTable) :
    ((cols.foldl (fun s c => rebuildSecondaryIndexForColumn c s) st)).pkIndex
      = st.pkIndex := by
  induction cols generalizing st with
  | nil => rfl
  | cons c rest ih => exact ih (rebuildSecondaryIndexForColumn c st)

theorem rebuildCols_secCols (cols : List ColumnType) (st : QBTable) :
    ((cols.foldl (fun s c => rebuildSecondaryIndexForColumn c s) st)).secCols
      = st.secCols := by
  induction cols generalizing st with
  | nil => rfl
  | cons c rest ih => exact ih (rebuildSecondaryIndexForColumn c st)

theorem rebuildCols_secIdx (cols : List ColumnType) (st : QBTable) (c : ColumnType)
    (key : FieldType) :
    alookup (c, key)
        ((cols.foldl (fun s c => rebuildSecondaryIndexForColumn c s) st)).secIdx
      = if c ∈ cols then optOfNonempty (canonical st c key)
        else alookup (c, key) st.secIdx := by
  induction cols generalizing st with
  | nil => simp
  | cons c0 rest ih =>
    show alookup (c, key)
        ((rest.foldl (fun s c => rebuildSecondaryIndexForColumn c s)
          (rebuildSecondaryIndexForColumn c0 st))).secIdx = _
    rw [ih (rebuildSecondaryIndexForColumn c0 st)]
    by_cases hr : c ∈ rest
    · rw [if_pos hr, if_pos (List.mem_cons_of_mem c0 hr), canonical_rebuildCol]
    · rw [if_neg hr]
      by_cases hc : c = c0
      · subst hc
        rw [rebuildCol_secIdx_self, if_pos (List.mem_cons_self c rest)]
      · rw [rebuildCol_secIdx_other st hc, if_neg (by simp [hc, hr])]

theorem rebuildCols_keys_nodup (cols : List ColumnType) (st : QBTable)
    (h : (st.secIdx.map Prod.fst).Nodup) :
    (((cols.foldl (fun s c => rebuildSecondaryIndexForColumn c s) st)).secIdx.map
      Prod.fst).Nodup := by
  induction cols generalizing st with
  | nil => exact h
  | cons c rest ih => exact ih (rebuildSecondaryIndexForColumn c st) (rebuildCol_keys_nodup st c h)

end QBTable

/-! ## State-transfer helpers and invariant preservation -/


theorem getD_concat_length {α : Type} (l : List α) (b d : α) :
    (l ++ [b]).getD l.length d = b := by
  rw [List.getD_eq_getElem?_getD, List.getElem?_concat_length]; rfl

theorem getD_set_self {α : Type} (l : List α) (i : Nat) (v d : α) (h : i < l.length) :
    (l.set i v).getD i d = v := by
  rw [List.getD_eq_getElem?_getD, List.getElem?_set_self]
  · rfl
  · exact h

theorem getD_set_ne {α : Type} (l : List α) (i j : Nat) (v d : α) (h : j ≠ i) :
    (l.set i v).getD j d = l.getD j d := by
  rw [List.getD_eq_getElem?_getD, List.getElem?_set_ne (fun e => h e.symm),
    ← List.getD_eq_getElem?_getD]

namespace QBTable

/-- `canonical` depends only on the store and the deleted markers. -/
theorem canonical_congr {st st' : QBTable} (h1 : st'.records = st.records)
    (h2 : st'.deleted = st.deleted) (c : ColumnType) (key : FieldType) :
    canonical st' c key = canonical st c key := by
  simp only [canonical, canonUpTo, getColumnIndexKey, delAt, recAt, h1, h2]

/-- The fresh table satisfies the invariant. -/
theorem Inv_init : Inv init := by
  refine ⟨rfl, List.nodup_nil, ?_, List.nodup_nil, ?_, List.nodup_nil, ?_⟩
  · intro k i h; cases h
  · intro h; cases h
  · intro c key
    simp [init, alookup]

section AddRecord

variable (st : QBTable) (r : QBRecord)

theorem addRecord_records : (addRecord r st).records = st.records ++ [r] := rfl

theorem addRecord_deleted : (addRecord r st).deleted = st.deleted ++ [false] := rfl

theorem addRecord_pkIndex :
    (addRecord r st).pkIndex = aupsert r.column0 st.records.length st.pkIndex := rfl

theorem addRecord_secCols : (addRecord r st).secCols = st.secCols := rfl

theorem addRecord_secIdx :
    (addRecord r st).secIdx
      = st.secCols.foldl
          (fun m columnID => bucketAdd
            (columnID, (addRecord r st).getColumnIndexKey st.records.length columnID)
            st.records.length m)
          st.secIdx := rfl

theorem addRecord_delAt_lt (hlen : st.deleted.length = st.records.length)
    {i : Nat} (h : i < st.records.length) : (addRecord r st).delAt i = st.delAt i := by
  show (st.deleted ++ [false]).getD i true = st.deleted.getD i true
  exact List.getD_append _ _ _ _ (hlen ▸ h)

theorem addRecord_delAt_new (hlen : st.deleted.length = st.records.length) :
    (addRecord r st).delAt st.records.length = false := by
  show (st.deleted ++ [false]).getD st.records.length true = false
  rw [← hlen]
  exact getD_concat_length _ _ _

theorem addRecord_recAt_lt {i : Nat} (h : i < st.records.length) :
    (addRecord r st).recAt i = st.recAt i := by
  show (st.records ++ [r]).getD i default = st.records.getD i default
  exact List.getD_append _ _ _ _ h

theorem addRecord_recAt_new : (addRecord r st).recAt st.records.length = r := by
  show (st.records ++ [r]).getD st.records.length default = r
  exact getD_concat_length _ _ _

theorem addRecord_key_lt (hlen : st.deleted.length = st.records.length)
    {i : Nat} (h : i < st.records.length) (c : ColumnType) :
    (addRecord r st).getColumnIndexKey i c = st.getColumnIndexKey i c := by
  unfold getColumnIndexKey
  rw [addRecord_delAt_lt st r hlen h, addRecord_recAt_lt st r h, addRecord_records]
  have h1 : ¬ (st.records ++ [r]).length ≤ i := by
    simp only [List.length_append, List.length_cons, List.length_nil]
    omega
  have h2 : ¬ st.records.length ≤ i := by omega
  rw [if_neg h1, if_neg h2]

theorem addRecord_key_new (hlen : st.deleted.length = st.records.length) (c : ColumnType) :
    (addRecord r st).getColumnIndexKey st.records.length c = colKeyOfRec r c := by
  unfold getColumnIndexKey
  rw [addRecord_delAt_new st r hlen, addRecord_recAt_new st r, addRecord_records]
  have h1 : ¬ (st.records ++ [r]).length ≤ st.records.length := by
    simp only [List.length_append, List.length_cons, List.length_nil]
    omega
  rw [if_neg h1]
  simp

theorem addRecord_canonical (hlen : st.deleted.length = st.records.length)
    (c : ColumnType) (key : FieldType) :
    canonical (addRecord r st) c key
      = canonical st c key ++ (if colKeyOfRec r c = key then [st.records.length] else []) := by
  have hlen' : (addRecord r st).records.length = st.records.length + 1 := by
    rw [addRecord_records]; simp
  unfold canonical
  rw [hlen', canonUpTo_succ]
  congr 1
  · unfold canonUpTo
    refine List.filter_congr ?_
    intro i hi
    have hi' : i < st.records.length := List.mem_range.mp hi
    rw [addRecord_delAt_lt st r hlen hi', addRecord_key_lt st r hlen hi']
  · rw [addRecord_delAt_new st r hlen, addRecord_key_new st r hlen]
    simp

end AddRecord

end QBTable

namespace QBTable

/-- Effect of `addRecord`'s per-indexed-column bucket update on lookups. -/
theorem addFold_lookup (n : Nat) (keyfn : ColumnType → FieldType) :
    ∀ (cols : List ColumnType), cols.Nodup →
    ∀ (m : List ((ColumnType × FieldType) × List Nat)) (c : ColumnType) (key : FieldType),
    alookup (c, key) (cols.foldl (fun m c' => bucketAdd (c', keyfn c') n m) m)
      = if c ∈ cols ∧ keyfn c = key
        then some ((alookup (c, key) m).getD [] ++ [n])
        else alookup (c, key) m := by
  intro cols
  induction cols with
  | nil => intro _ m c key; simp
  | cons c0 rest ih =>
    intro hnd m c key
    rw [List.nodup_cons] at hnd
    show alookup (c, key)
        (rest.foldl (fun m c' => bucketAdd (c', keyfn c') n m)
          (bucketAdd (c0, keyfn c0) n m)) = _
    rw [ih hnd.2]
    by_cases hc : c = c0
    · subst hc
      have hnr : ¬ (c ∈ rest ∧ keyfn c = key) := fun h => hnd.1 h.1
      rw [if_neg hnr]
      by_cases hk : keyfn c = key
      · rw [← hk, alookup_bucketAdd_self, if_pos ⟨List.mem_cons_self c rest, rfl⟩]
      · have hne : (c, key) ≠ (c, keyfn c) := fun e => hk (congrArg Prod.snd e).symm
        rw [alookup_bucketAdd_ne hne, if_neg (fun h => hk h.2)]
    · have hne : (c, key) ≠ (c0, keyfn c0) := fun e => hc (congrArg Prod.fst e)
      rw [alookup_bucketAdd_ne hne]
      by_cases hr : c ∈ rest ∧ keyfn c = key
      · rw [if_pos hr, if_pos ⟨List.mem_cons_of_mem c0 hr.1, hr.2⟩]
      · rw [if_neg hr, if_neg (by
          intro h
          rcases h with ⟨hmem, hkey⟩
          rcases List.mem_cons.mp hmem with h0 | h0
          · exact hc h0
          · exact hr ⟨h0, hkey⟩)]

theorem addFold_keys_nodup (n : Nat) (keyfn : ColumnType → FieldType) :
    ∀ (cols : List ColumnType) (m : List ((ColumnType × FieldType) × List Nat)),
    (m.map Prod.fst).Nodup →
    ((cols.foldl (fun m c' => bucketAdd (c', keyfn c') n m) m).map Prod.fst).Nodup := by
  intro cols
  induction cols with
  | nil => intro m h; exact h
  | cons c0 rest ih =>
    intro m h
    exact ih _ (keys_bucketAdd_nodup h)

/-- `addRecord` preserves the table invariant. -/
theorem Inv_addRecord {st : QBTable} (hinv : Inv st) (r : QBRecord) :
    Inv (addRecord r st) := by
  obtain ⟨hlen, hpknd, hpk, hscnd, hpns, hsknd, hsec⟩ := hinv
  have hlen1 : (addRecord r st).records.length = st.records.length + 1 := by
    rw [addRecord_records]; simp
  constructor
  · rw [addRecord_records, addRecord_deleted]
    simp [hlen]
  · rw [addRecord_pkIndex]
    exact keys_aupsert_nodup hpknd
  · intro k i
    rw [addRecord_pkIndex]
    by_cases hk : k = r.column0
    · subst hk
      rw [alookup_aupsert_self]
      intro h
      cases h
      refine ⟨by omega, addRecord_delAt_new st r hlen, by rw [addRecord_recAt_new]⟩
    · rw [alookup_aupsert_ne hk]
      intro h
      obtain ⟨h1, h2, h3⟩ := hpk k i h
      exact ⟨by omega, by rw [addRecord_delAt_lt st r hlen h1]; exact h2,
        by rw [addRecord_recAt_lt st r h1]; exact h3⟩
  · rw [addRecord_secCols]; exact hscnd
  · rw [addRecord_secCols]; exact hpns
  · rw [addRecord_secIdx]
    exact addFold_keys_nodup _ _ _ _ hsknd
  · intro c key
    rw [addRecord_secIdx,
      addFold_lookup st.records.length _ st.secCols hscnd st.secIdx c key]
    rw [addRecord_secCols, addRecord_canonical st r hlen]
    by_cases hmem : c ∈ st.secCols
    · rw [if_pos hmem]
      by_cases hk : colKeyOfRec r c = key
      · have hkey' : (addRecord r st).getColumnIndexKey st.records.length c = key := by
          rw [addRecord_key_new st r hlen, hk]
        rw [if_pos ⟨hmem, hkey'⟩, hsec c key, if_pos hmem, if_pos hk]
        rw [optOfNonempty_getD]
        rw [@optOfNonempty_of_ne_nil _ (canonical st c key ++ [st.records.length]) (by simp)]
      · have hkey' : ¬ ((addRecord r st).getColumnIndexKey st.records.length c = key) := by
          rw [addRecord_key_new st r hlen]; exact hk
        rw [if_neg (fun h => hkey' h.2), hsec c key, if_pos hmem, if_neg hk,
          List.append_nil]
    · rw [if_neg (fun h => hmem h.1), hsec c key, if_neg hmem, if_neg hmem]

end QBTable

namespace QBTable

theorem deleteRecordByID_none {st : QBTable} {id : Nat} (h : alookup id st.pkIndex = none)
    (hard : Bool) : deleteRecordByID id hard st = (false, st) := by
  unfold deleteRecordByID
  simp only [h]

theorem deleteRecordByID_soft_already {st : QBTable} {id idx : Nat}
    (h : alookup id st.pkIndex = some idx) (hdel : st.delAt idx = true) :
    deleteRecordByID id false st = (false, st) := by
  unfold deleteRecordByID
  simp only [h, hdel]
  simp

theorem deleteRecordByID_soft {st : QBTable} {id idx : Nat}
    (h : alookup id st.pkIndex = some idx) (hdel : st.delAt idx = false) :
    deleteRecordByID id false st
      = (true, { st with
          deleted := st.deleted.set idx true
          pkIndex := aerase id st.pkIndex
          secIdx := removeSlotEverywhere idx st.secIdx }) := by
  unfold deleteRecordByID
  simp only [h, hdel]
  simp

theorem deleteRecordByID_hard {st : QBTable} {id idx : Nat}
    (h : alookup id st.pkIndex = some idx) :
    deleteRecordByID id true st
      = (true,
          (rebuildPrimaryKeyIndex { st with
            records := ((st.records.set idx (st.recAt (st.records.length - 1))).set
              (st.records.length - 1) (st.recAt idx)).dropLast
            deleted := ((st.deleted.set idx (st.delAt (st.records.length - 1))).set
              (st.records.length - 1) (st.delAt idx)).dropLast }).secCols.foldl
            (fun s c => rebuildSecondaryIndexForColumn c s)
            (rebuildPrimaryKeyIndex { st with
              records := ((st.records.set idx (st.recAt (st.records.length - 1))).set
                (st.records.length - 1) (st.recAt idx)).dropLast
              deleted := ((st.deleted.set idx (st.delAt (st.records.length - 1))).set
                (st.records.length - 1) (st.delAt idx)).dropLast })) := by
  unfold deleteRecordByID
  simp only [h]
  simp

end QBTable

namespace QBTable

/-- Soft deletion restricts every canonical bucket to the surviving slots. -/
theorem canonical_softdel (st : QBTable) (idx : Nat)
    (hlen : st.deleted.length = st.records.length) (hidx : idx < st.records.length)
    (c : ColumnType) (key : FieldType) :
    canonical { st with deleted := st.deleted.set idx true } c key
      = (canonical st c key).filter (fun i => !decide (i = idx)) := by
  unfold canonical canonUpTo
  rw [List.filter_filter]
  have hlength : ({ st with deleted := st.deleted.set idx true } : QBTable).records.length
      = st.records.length := rfl
  rw [hlength]
  refine List.filter_congr ?_
  intro i hi
  by_cases he : i = idx
  · subst he
    have hdel : ({ st with deleted := st.deleted.set i true } : QBTable).delAt i = true := by
      show (st.deleted.set i true).getD i true = true
      exact getD_set_self _ _ _ _ (hlen ▸ hidx)
    simp [hdel]
  · have hdel : ({ st with deleted := st.deleted.set idx true } : QBTable).delAt i
        = st.delAt i := by
      show (st.deleted.set idx true).getD i true = st.deleted.getD i true
      exact getD_set_ne _ _ _ _ _ he
    have hkey : ({ st with deleted := st.deleted.set idx true } : QBTable).getColumnIndexKey i c
        = st.getColumnIndexKey i c := by
      unfold getColumnIndexKey
      rw [hdel]
      rfl
    rw [hdel, hkey]
    simp [he]

/-- Rebuilding the primary-key index and every indexed column from scratch
establishes the invariant on any length-consistent store whose stale buckets
only concern indexed columns. -/
theorem Inv_rebuildAll {st1 : QBTable} (hlen1 : st1.deleted.length = st1.records.length)
    (hscnd : st1.secCols.Nodup) (hpns : ColumnType.column0 ∉ st1.secCols)
    (hsknd : (st1.secIdx.map Prod.fst).Nodup)
    (hsecNone : ∀ c key, c ∉ st1.secCols → alookup (c, key) st1.secIdx = none) :
    Inv ((rebuildPrimaryKeyIndex st1).secCols.foldl
      (fun s c => rebuildSecondaryIndexForColumn c s) (rebuildPrimaryKeyIndex st1)) := by
  have hFrec : ((rebuildPrimaryKeyIndex st1).secCols.foldl
      (fun s c => rebuildSecondaryIndexForColumn c s) (rebuildPrimaryKeyIndex st1)).records
      = st1.records := by
    rw [rebuildCols_records, rebuildPK_records]
  have hFdel : ((rebuildPrimaryKeyIndex st1).secCols.foldl
      (fun s c => rebuildSecondaryIndexForColumn c s) (rebuildPrimaryKeyIndex st1)).deleted
      = st1.deleted := by
    rw [rebuildCols_deleted, rebuildPK_deleted]
  have hFpk : ((rebuildPrimaryKeyIndex st1).secCols.foldl
      (fun s c => rebuildSecondaryIndexForColumn c s) (rebuildPrimaryKeyIndex st1)).pkIndex
      = (rebuildPrimaryKeyIndex st1).pkIndex := by
    rw [rebuildCols_pkIndex]
  have hFsc : ((rebuildPrimaryKeyIndex st1).secCols.foldl
      (fun s c => rebuildSecondaryIndexForColumn c s) (rebuildPrimaryKeyIndex st1)).secCols
      = st1.secCols := by
    rw [rebuildCols_secCols, rebuildPK_secCols]
  refine ⟨?_, ?_, ?_, ?_, ?_, ?_, ?_⟩
  · rw [hFrec, hFdel]; exact hlen1
  · rw [hFpk]; exact rebuildPK_keys_nodup st1
  · intro k i h
    rw [hFpk] at h
    obtain ⟨h1, h2, h3⟩ := rebuildPK_sound st1 k i h
    refine ⟨by rw [hFrec]; exact h1, ?_, ?_⟩
    · show _ = false
      unfold delAt
      rw [hFdel]
      exact h2
    · unfold recAt
      rw [hFrec]
      exact h3
  · rw [hFsc]; exact hscnd
  · rw [hFsc]; exact hpns
  · exact rebuildCols_keys_nodup _ _ hsknd
  · intro c key
    rw [rebuildCols_secIdx]
    rw [hFsc, show st1.rebuildPrimaryKeyIndex.secCols = st1.secCols from rfl,
      show st1.rebuildPrimaryKeyIndex.secIdx = st1.secIdx from rfl,
      show canonical st1.rebuildPrimaryKeyIndex = canonical st1 from rfl]
    by_cases hmem : c ∈ st1.secCols
    · rw [if_pos hmem, if_pos hmem]
      congr 1
      exact (canonical_congr hFrec hFdel c key).symm
    · rw [if_neg hmem, if_neg hmem]
      exact hsecNone c key hmem

/-- `deleteRecordByID` preserves the table invariant. -/
theorem Inv_deleteRecordByID {st : QBTable} (hinv : Inv st) (id : Nat) (hard : Bool) :
    Inv (deleteRecordByID id hard st).2 := by
  cases hidl : alookup id st.pkIndex with
  | none => rw [deleteRecordByID_none hidl]; exact hinv
  | some idx =>
    obtain ⟨hidx, hdelidx, hkeyidx⟩ := hinv.pkSound id idx hidl
    obtain ⟨hlen, hpknd, hpk, hscnd, hpns, hsknd, hsec⟩ := hinv
    cases hard with
    | true =>
      rw [deleteRecordByID_hard hidl]
      refine Inv_rebuildAll ?_ hscnd hpns hsknd ?_
      · show (((st.deleted.set idx _).set _ _).dropLast).length
          = (((st.records.set idx _).set _ _).dropLast).length
        simp [hlen]
      · intro c key hmem
        rw [show ({ st with
            records := ((st.records.set idx (st.recAt (st.records.length - 1))).set
              (st.records.length - 1) (st.recAt idx)).dropLast
            deleted := ((st.deleted.set idx (st.delAt (st.records.length - 1))).set
              (st.records.length - 1) (st.delAt idx)).dropLast } : QBTable).secIdx
          = st.secIdx from rfl]
        rw [hsec c key, if_neg hmem]
    | false =>
      rw [deleteRecordByID_soft hidl hdelidx]
      refine ⟨?_, ?_, ?_, hscnd, hpns, ?_, ?_⟩
      · show (st.deleted.set idx true).length = st.records.length
        simp [hlen]
      · exact (keys_aerase_sublist id st.pkIndex).nodup hpknd
      · intro k i h
        have hk : k ≠ id := by
          intro e
          subst e
          rw [alookup_aerase_self] at h
          cases h
        rw [alookup_aerase_ne hk] at h
        obtain ⟨h1, h2, h3⟩ := hpk k i h
        have hne : i ≠ idx := by
          intro e
          subst e
          exact hk (h3.symm.trans hkeyidx)
        refine ⟨h1, ?_, h3⟩
        show (st.deleted.set idx true).getD i true = false
        rw [getD_set_ne _ _ _ _ _ hne]
        exact h2
      · exact (keys_removeSlotEverywhere_sublist idx st.secIdx).nodup hsknd
      · intro c key
        show alookup (c, key) (removeSlotEverywhere idx st.secIdx) = _
        rw [alookup_removeSlotEverywhere idx hsknd, hsec c key]
        have hcan : canonical { st with
            deleted := st.deleted.set idx true
            pkIndex := aerase id st.pkIndex
            secIdx := removeSlotEverywhere idx st.secIdx } c key
            = (canonical st c key).filter (fun i => !decide (i = idx)) := by
          rw [show canonical { st with
              deleted := st.deleted.set idx true
              pkIndex := aerase id st.pkIndex
              secIdx := removeSlotEverywhere idx st.secIdx } c key
            = canonical { st with deleted := st.deleted.set idx true } c key from rfl]
          exact canonical_softdel st idx hlen hidx c key
        by_cases hmem : c ∈ st.secCols
        · rw [if_pos hmem, if_pos hmem, hcan]
          by_cases hnil : canonical st c key = []
          · rw [hnil]
            simp [optOfNonempty]
          · rw [optOfNonempty_of_ne_nil hnil]
        · rw [if_neg hmem, if_neg hmem]

end QBTable

namespace QBTable

/-- `createIndex` preserves the table invariant. -/
theorem Inv_createIndex {st : QBTable} (hinv : Inv st) (c : ColumnType) :
    Inv (createIndex c st) := by
  obtain ⟨hlen, hpknd, hpk, hscnd, hpns, hsknd, hsec⟩ := hinv
  unfold createIndex
  by_cases h0 : c = ColumnType.column0
  · rw [if_pos h0]
    exact ⟨hlen, hpknd, hpk, hscnd, hpns, hsknd, hsec⟩
  · rw [if_neg h0]
    by_cases hmem : c ∈ st.secCols
    · rw [if_pos hmem]
      exact ⟨hlen, hpknd, hpk, hscnd, hpns, hsknd, hsec⟩
    · rw [if_neg hmem]
      refine ⟨hlen, hpknd, hpk, ?_, ?_, ?_, ?_⟩
      · rw [rebuildCol_secCols]
        show (st.secCols ++ [c]).Nodup
        refine List.Nodup.append hscnd (List.nodup_singleton c) ?_
        intro a ha hb
        rw [List.mem_singleton] at hb
        exact hmem (hb ▸ ha)
      · rw [rebuildCol_secCols]
        show ColumnType.column0 ∉ st.secCols ++ [c]
        intro hm
        rcases List.mem_append.mp hm with hm | hm
        · exact hpns hm
        · exact h0 (List.mem_singleton.mp hm).symm
      · exact rebuildCol_keys_nodup _ _ hsknd
      · intro c' key
        by_cases hc : c' = c
        · subst hc
          rw [rebuildCol_secIdx_self, rebuildCol_secCols]
          rw [if_pos (by
            show c' ∈ st.secCols ++ [c']
            exact List.mem_append.mpr (Or.inr (List.mem_singleton_self c')))]
          rfl
        · rw [rebuildCol_secIdx_other _ hc, rebuildCol_secCols]
          show alookup (c', key) st.secIdx = _
          rw [hsec c' key]
          by_cases hm : c' ∈ st.secCols
          · rw [if_pos hm, if_pos (by
              show c' ∈ st.secCols ++ [c]
              exact List.mem_append.mpr (Or.inl hm))]
            rfl
          · rw [if_neg hm, if_neg (by
              intro hmm
              rcases List.mem_append.mp hmm with h | h
              · exact hm h
              · exact hc (List.mem_singleton.mp h))]

/-- `dropIndex` preserves the table invariant. -/
theorem Inv_dropIndex {st : QBTable} (hinv : Inv st) (c : ColumnType) :
    Inv (dropIndex c st) := by
  obtain ⟨hlen, hpknd, hpk, hscnd, hpns, hsknd, hsec⟩ := hinv
  unfold dropIndex
  by_cases h0 : c = ColumnType.column0
  · rw [if_pos h0]
    exact ⟨hlen, hpknd, hpk, hscnd, hpns, hsknd, hsec⟩
  · rw [if_neg h0]
    refine ⟨hlen, hpknd, hpk, ?_, ?_, ?_, ?_⟩
    · show (st.secCols.filter _).Nodup
      exact (List.filter_sublist st.secCols).nodup hscnd
    · show ColumnType.column0 ∉ st.secCols.filter _
      intro hm
      exact hpns (List.mem_of_mem_filter hm)
    · show ((st.secIdx.filter _).map Prod.fst).Nodup
      exact ((List.filter_sublist st.secIdx).map Prod.fst).nodup hsknd
    · intro c' key
      by_cases hc : c' = c
      · subst hc
        show alookup (c', key) (st.secIdx.filter _) = _
        rw [alookup_filter_fst_ne st.secIdx (c', key) rfl]
        rw [if_neg (by
          intro hm
          have := List.of_mem_filter hm
          simp at this)]
      · show alookup (c', key) (st.secIdx.filter _) = _
        rw [alookup_filter_fst_same st.secIdx (c', key) hc, hsec c' key]
        rw [show (removeSecondaryIndexForColumn c
            { st with secCols := st.secCols.filter (fun x => !decide (x = c)) }).secCols
          = st.secCols.filter (fun x => !decide (x = c)) from rfl]
        by_cases hm : c' ∈ st.secCols
        · rw [if_pos hm, if_pos (by
            refine List.mem_filter.mpr ⟨hm, ?_⟩
            simp [hc])]
          rfl
        · rw [if_neg hm, if_neg (fun hmm => hm (List.mem_of_mem_filter hmm))]

/-- `compactRecords` establishes the table invariant on any length-consistent
state. -/
theorem Inv_compactRecords {st : QBTable} (hinv : Inv st) : Inv (compactRecords st) := by
  obtain ⟨hlen, hpknd, hpk, hscnd, hpns, hsknd, hsec⟩ := hinv
  exact @Inv_rebuildAll { st with
      records := ((st.records.zip st.deleted).filter (fun rb => !rb.2)).map Prod.fst
      deleted := List.replicate
        (((st.records.zip st.deleted).filter (fun rb => !rb.2)).map Prod.fst).length false
      secIdx := [] }
    (by simp) hscnd hpns (by simp) (fun c key _ => rfl)

/-- Every public call preserves the table invariant. -/
theorem Inv_step {st : QBTable} (hinv : Inv st) (op : Op) : Inv (step st op) := by
  cases op with
  | add r => exact Inv_addRecord hinv r
  | del k h => exact Inv_deleteRecordByID hinv k h
  | mkIdx c => exact Inv_createIndex hinv c
  | rmIdx c => exact Inv_dropIndex hinv c
  | compact => exact Inv_compactRecords hinv

theorem Inv_foldl : ∀ (ops : List Op) (st : QBTable), Inv st → Inv (ops.foldl step st) := by
  intro ops
  induction ops with
  | nil => intro st h; exact h
  | cons op rest ih => intro st h; exact ih (step st op) (Inv_step h op)

/-- Every reachable fixed-schema table state satisfies the invariant. -/
theorem Inv_run (ops : List Op) : Inv (run ops) :=
  Inv_foldl ops init Inv_init

end QBTable

/-! ## Claim theorems -/


/-- C10: in the dynamic variant, `findMatching "id" value` returns normally
(for every table state) exactly when the match value holds the unsigned-integer
alternative of the field-value union; for the signed-integer and text
alternatives the primary-key branch faults with `std::get`'s
`bad_variant_access` instead of returning an empty result. -/
theorem claim_C10_findMatching_id_uint_only :
    (∀ (st : QBTableDynamic) (n : Nat),
      (QBTableDynamic.findMatching "id" (.u n) st).isOk = true)
  ∧ (∀ (st : QBTableDynamic) (i : Int),
      QBTableDynamic.findMatching "id" (.l i) st = .error .badVariantGet)
  ∧ (∀ (st : QBTableDynamic) (s : String),
      QBTableDynamic.findMatching "id" (.s s) st = .error .badVariantGet) := by
  refine ⟨?_, ?_, ?_⟩
  · intro st n
    unfold QBTableDynamic.findMatching
    rw [if_pos rfl]
    show (match alookup n st.pkIndex with
      | some i => if !st.delAt i then Except.ok [st.recAt i] else .ok []
      | none => .ok []).isOk = true
    cases h : alookup n st.pkIndex with
    | none => rfl
    | some i =>
      by_cases hd : st.delAt i
      · simp [h, hd, Except.isOk, Except.toBool]
      · simp [h, hd, Except.isOk, Except.toBool]
  · intro st i
    unfold QBTableDynamic.findMatching
    rw [if_pos rfl]
  · intro st s
    unfold QBTableDynamic.findMatching
    rw [if_pos rfl]



/-- C9 counterexample: in the dynamic variant, `dropIndex` on the primary-key
column `"id"` does not return normally — it throws
`std::runtime_error("Cannot drop index on primary key column")` even on the
freshly constructed table, contradicting the claim that dropping the
primary-key index is a harmless no-op in both variants. -/
theorem claim_C9_cex_dropIndex_id_throws :
    QBTableDynamic.dropIndex "id" QBTableDynamic.init = .error .cannotDropPk := rfl

/-- C9 (amended): `dropIndex` is idempotent in both variants and a silent
no-op on the primary key in the fixed-schema variant only; the dynamic variant
throws an error on `dropIndex "id"` (leaving no successor state) instead of
returning normally. -/
theorem claim_C9_dropIndex_idempotent_amended :
    (∀ st : QBTable, QBTable.dropIndex .column0 st = st)
  ∧ (∀ (st : QBTable) (c : ColumnType),
      QBTable.dropIndex c (QBTable.dropIndex c st) = QBTable.dropIndex c st)
  ∧ (∀ st : QBTableDynamic,
      QBTableDynamic.dropIndex "id" st = .error .cannotDropPk)
  ∧ (∀ (st st' : QBTableDynamic) (c : String), c ≠ "id" →
      QBTableDynamic.dropIndex c st = .ok st' →
      QBTableDynamic.dropIndex c st' = .ok st') := by
  refine ⟨?_, ?_, ?_, ?_⟩
  · intro st
    unfold QBTable.dropIndex
    rw [if_pos rfl]
  · intro st c
    by_cases h0 : c = ColumnType.column0
    · subst h0
      unfold QBTable.dropIndex
      rw [if_pos rfl, if_pos rfl]
    · cases st with
    | mk records deleted pkIndex secCols secIdx =>
      unfold QBTable.dropIndex QBTable.removeSecondaryIndexForColumn
      rw [if_neg h0, if_neg h0]
      simp [List.filter_filter]
  · intro st
    unfold QBTableDynamic.dropIndex
    rw [if_pos rfl]
  · intro st st' c hc h
    unfold QBTableDynamic.dropIndex at h ⊢
    rw [if_neg hc] at h ⊢
    cases h
    simp [List.filter_filter]



/-- C6 counterexample: a dynamic-variant table with declared column `"a"`
accepts a record carrying no fields at all — `addRecord` returns `true` and
appends the record, although the record's field set does not exactly match the
declared physical columns (the declared column is missing). -/
theorem claim_C6_cex_missing_column_accepted :
    QBTableDynamic.runD [.addCol "a" (.s "")]
        = some { QBTableDynamic.init with columns := ["a"] }
  ∧ QBTableDynamic.addRecord ⟨1, []⟩ { QBTableDynamic.init with columns := ["a"] }
      = .ok (true, { QBTableDynamic.init with
          columns := ["a"], records := [⟨1, []⟩], deleted := [false], pkIndex := [(1, 0)] }) :=
  ⟨rfl, rfl⟩

/-- C6 (amended): the dynamic variant's `addRecord` checks only that every
field of the record names a declared physical column (no undeclared fields);
records missing declared columns are accepted.  When an undeclared field is
present the call fails (`false` return) and the table is unchanged — no
partial mutation. -/
theorem claim_C6_addRecord_schema_amended :
    ∀ (st : QBTableDynamic) (r : QBRecordDynamic),
      ((∃ kv ∈ r.fields, kv.1 ∉ st.columns) →
        QBTableDynamic.addRecord r st = .ok (false, st))
    ∧ ((∀ kv ∈ r.fields, kv.1 ∈ st.columns) →
        ∀ (b : Bool) (st' : QBTableDynamic),
          QBTableDynamic.addRecord r st = .ok (b, st') →
          b = true ∧ st'.records = st.records ++ [r] ∧ st'.deleted = st.deleted ++ [false]
          ∧ st'.pkIndex = aupsert r.id st.records.length st.pkIndex
          ∧ st'.columns = st.columns ∧ st'.secCols = st.secCols) := by
  intro st r
  constructor
  · intro hbad
    unfold QBTableDynamic.addRecord
    rw [if_pos ?_]
    rcases hbad with ⟨kv, hmem, hnot⟩
    rw [List.any_eq_true]
    exact ⟨kv, hmem, by simp [hnot]⟩
  · intro hgood b st' h
    have hcond : ¬ (r.fields.any (fun kv => !(kv.1 ∈ st.columns : Bool)) = true) := by
      rw [List.any_eq_true]
      rintro ⟨kv, hmem, hdec⟩
      simp at hdec
      exact hdec (hgood kv hmem)
    unfold QBTableDynamic.addRecord at h
    rw [if_neg hcond] at h
    dsimp only [] at h
    split at h
    · cases h
    · cases h
      exact ⟨rfl, rfl, rfl, rfl, rfl, rfl⟩



/-- Witness for C9's amended theorem at a concrete input: dropping a
non-primary-key index twice on the fresh dynamic table is the same as
dropping it once. -/
theorem claim_C9_witness :
    QBTableDynamic.dropIndex "x" QBTableDynamic.init = .ok QBTableDynamic.init :=
  claim_C9_dropIndex_idempotent_amended.2.2.2 QBTableDynamic.init QBTableDynamic.init "x"
    (by decide) rfl

/-- Witness for C6's amended theorem at a concrete input: a record with the
undeclared field `"b"` is rejected without mutation. -/
theorem claim_C6_witness :
    QBTableDynamic.addRecord ⟨1, [("b", FieldType.u 0)]⟩
        { QBTableDynamic.init with columns := ["a"] }
      = .ok (false, { QBTableDynamic.init with columns := ["a"] }) :=
  (claim_C6_addRecord_schema_amended { QBTableDynamic.init with columns := ["a"] }
      ⟨1, [("b", FieldType.u 0)]⟩).1
    ⟨("b", FieldType.u 0), by decide, by decide⟩



/-- C8 counterexample: in the dynamic variant an unindexed text column does
NOT match by substring.  A reachable table holds one record with field
`"c" = "hello"`; `"ell"` is a substring of `"hello"`, yet
`findMatching "c" "ell"` returns the empty result because the dynamic linear
scan compares field values for exact equality. -/
theorem claim_C8_cex_dynamic_text_not_substring :
    QBTableDynamic.runD [.addCol "c" (.s ""), .add ⟨1, [("c", .s "hello")]⟩]
        = some { QBTableDynamic.init with
            columns := ["c"], records := [⟨1, [("c", .s "hello")]⟩],
            deleted := [false], pkIndex := [(1, 0)] }
  ∧ strContains "hello" "ell" = true
  ∧ QBTableDynamic.findMatching "c" (.s "ell")
        { QBTableDynamic.init with
          columns := ["c"], records := [⟨1, [("c", .s "hello")]⟩],
          deleted := [false], pkIndex := [(1, 0)] }
      = .ok [] :=
  ⟨rfl, by decide, rfl⟩

/-- C8 (amended): in the fixed-schema variant the unindexed fallback scan
matches text columns by substring containment and `column2` by exact value
after parsing (a parse failure yields an empty result), and `findMatching` on
an unindexed non-primary-key column is served by that scan; the dynamic
variant's fallback scan instead compares the record's stored field against the
typed match value for exact equality. -/
theorem claim_C8_unindexed_scan_amended :
    (∀ (st : QBTable) (s : String),
      QBTable.linearScan st .column1 s = QBTable.substrTextScan st QBRecord.column1 s
    ∧ QBTable.linearScan st .column3 s = QBTable.substrTextScan st QBRecord.column3 s
    ∧ (parseLongChars s = none → QBTable.linearScan st .column2 s = [])
    ∧ (∀ v : Int, parseLongChars s = some v →
        QBTable.linearScan st .column2 s = QBTable.exactNumScan st v)
    ∧ (∀ c : ColumnType, c ≠ .column0 → c ∉ st.secCols →
        QBTable.findMatching st c s = QBTable.linearScan st c s))
  ∧ (∀ (dst : QBTableDynamic) (c : String) (v : FieldType), c ≠ "id" →
      alookup (c, v) dst.secIdx = none →
      QBTableDynamic.findMatching c v dst = .ok (QBTableDynamic.dynExactScan dst c v)) := by
  constructor
  · intro st s
    refine ⟨?_, ?_, ?_, ?_, ?_⟩
    · exact QBTable.linearScan_go_column1 s _
    · exact QBTable.linearScan_go_column3 s _
    · intro h
      exact QBTable.linearScan_go_column2_none s h _
    · intro v h
      exact QBTable.linearScan_go_column2_some s v h _
    · intro c hc0 hmem
      unfold QBTable.findMatching
      rw [if_neg hc0, if_neg hmem]
  · intro dst c v hc hidx
    unfold QBTableDynamic.findMatching
    rw [if_neg hc, hidx]
    rfl

/-- C5 counterexample: after soft-deleting the only record with key 1 (a
reachable state where the record still physically occupies its slot), a hard
delete on key 1 returns `false`, not `true` — the key no longer resolves
through the primary-key index. -/
theorem claim_C5_cex_hard_after_soft_fails :
    (QBTable.deleteRecordByID 1 true
        (QBTable.run [.add ⟨1, "a", 0, "b"⟩, .del 1 false])).1 = false
  ∧ (QBTable.run [.add ⟨1, "a", 0, "b"⟩, .del 1 false]).records = [⟨1, "a", 0, "b"⟩]
  ∧ (QBTable.run [.add ⟨1, "a", 0, "b"⟩, .del 1 false]).deleted = [true] :=
  ⟨rfl, rfl, rfl⟩

/-- C5 (amended): soft deletion erases the key from the primary-key index, so
a subsequent hard delete by the same key fails — it returns `false` and leaves
the table unchanged — in both variants (unless another active record carries
the key). -/
theorem claim_C5_hard_after_soft_amended :
    (∀ (st : QBTable) (k idx : Nat),
      alookup k st.pkIndex = some idx → st.delAt idx = false →
      alookup k (QBTable.deleteRecordByID k false st).2.pkIndex = none
    ∧ QBTable.deleteRecordByID k true (QBTable.deleteRecordByID k false st).2
        = (false, (QBTable.deleteRecordByID k false st).2))
  ∧ (∀ (dst : QBTableDynamic) (k idx : Nat),
      alookup k dst.pkIndex = some idx → dst.delAt idx = false →
      ∀ (b : Bool) (dst' : QBTableDynamic),
        QBTableDynamic.deleteRecordByID k false dst = .ok (b, dst') →
        alookup k dst'.pkIndex = none
      ∧ QBTableDynamic.deleteRecordByID k true dst' = .ok (false, dst')) := by
  constructor
  · intro st k idx h hdel
    rw [QBTable.deleteRecordByID_soft h hdel]
    have hnone : alookup k (aerase k st.pkIndex) = none := alookup_aerase_self k st.pkIndex
    refine ⟨hnone, ?_⟩
    exact QBTable.deleteRecordByID_none hnone true
  · intro dst k idx h hdel b dst' hok
    unfold QBTableDynamic.deleteRecordByID at hok
    simp only [h] at hok
    rw [if_neg (by simp [hdel])] at hok
    rw [if_pos (by simp)] at hok
    split at hok
    · cases hok
    · cases hok
      have hnone : alookup k (aerase k dst.pkIndex) = none := alookup_aerase_self k dst.pkIndex
      refine ⟨hnone, ?_⟩
      unfold QBTableDynamic.deleteRecordByID
      simp only [hnone]



/-- Witness for C8's amended theorem at concrete inputs: substring scan on a
one-record table, routing of an unindexed column to the scan, and the dynamic
exact-equality scan. -/
theorem claim_C8_witness :
    QBTable.linearScan (QBTable.run [.add ⟨1, "hello", 5, "z"⟩]) .column1 "ell"
        = QBTable.substrTextScan (QBTable.run [.add ⟨1, "hello", 5, "z"⟩]) QBRecord.column1 "ell"
  ∧ QBTable.findMatching (QBTable.run [.add ⟨1, "hello", 5, "z"⟩]) .column1 "ell"
        = QBTable.linearScan (QBTable.run [.add ⟨1, "hello", 5, "z"⟩]) .column1 "ell"
  ∧ QBTableDynamic.findMatching "c" (.s "hello")
        { QBTableDynamic.init with
          columns := ["c"], records := [⟨1, [("c", .s "hello")]⟩],
          deleted := [false], pkIndex := [(1, 0)] }
      = .ok (QBTableDynamic.dynExactScan
          { QBTableDynamic.init with
            columns := ["c"], records := [⟨1, [("c", .s "hello")]⟩],
            deleted := [false], pkIndex := [(1, 0)] } "c" (.s "hello")) :=
  ⟨(claim_C8_unindexed_scan_amended.1 (QBTable.run [.add ⟨1, "hello", 5, "z"⟩]) "ell").1,
   (claim_C8_unindexed_scan_amended.1 (QBTable.run [.add ⟨1, "hello", 5, "z"⟩]) "ell").2.2.2.2
     .column1 (by decide) (by decide),
   claim_C8_unindexed_scan_amended.2 _ "c" (.s "hello") (by decide) rfl⟩

/-- Witness for C5's amended theorem at a concrete input: soft delete of key 1
in a one-record table, then a failing hard delete. -/
theorem claim_C5_witness :
    alookup 1 (QBTable.deleteRecordByID 1 false
        (QBTable.run [.add ⟨1, "a", 0, "b"⟩])).2.pkIndex = none
  ∧ QBTable.deleteRecordByID 1 true
        (QBTable.deleteRecordByID 1 false (QBTable.run [.add ⟨1, "a", 0, "b"⟩])).2
      = (false, (QBTable.deleteRecordByID 1 false (QBTable.run [.add ⟨1, "a", 0, "b"⟩])).2) :=
  claim_C5_hard_after_soft_amended.1 (QBTable.run [.add ⟨1, "a", 0, "b"⟩]) 1 0
    (by decide) (by decide)


namespace QBTableDynamic

theorem rebuildPrimaryIndex_records (st : QBTableDynamic) :
    (rebuildPrimaryIndex st).records = st.records := rfl

theorem rebuildSecondaryIndex_ok_fields {c : String} {st st' : QBTableDynamic}
    (h : rebuildSecondaryIndex c st = .ok st') :
    st'.records = st.records ∧ st'.deleted = st.deleted ∧ st'.pkIndex = st.pkIndex := by
  unfold rebuildSecondaryIndex at h
  dsimp only [] at h
  split at h
  · cases h
  · cases h
    exact ⟨rfl, rfl, rfl⟩

theorem dynFoldGuard_error (cols : List String) (e : DBError) :
    cols.foldl (fun (acc : Except DBError QBTableDynamic) c =>
      match acc with
      | .error e => .error e
      | .ok s => if c = "id" then .ok s else rebuildSecondaryIndex c s) (.error e)
      = .error e := by
  induction cols with
  | nil => rfl
  | cons c rest ih => exact ih

theorem dynFoldGuard_ok_fields :
    ∀ (cols : List String) (st st' : QBTableDynamic),
      cols.foldl (fun (acc : Except DBError QBTableDynamic) c =>
        match acc with
        | .error e => .error e
        | .ok s => if c = "id" then .ok s else rebuildSecondaryIndex c s) (.ok st) = .ok st' →
      st'.records = st.records ∧ st'.deleted = st.deleted ∧ st'.pkIndex = st.pkIndex := by
  intro cols
  induction cols with
  | nil =>
    intro st st' h
    cases h
    exact ⟨rfl, rfl, rfl⟩
  | cons c rest ih =>
    intro st st' h
    by_cases hc : c = "id"
    · simp only [List.foldl_cons, hc, if_pos rfl] at h
      exact ih st st' h
    · simp only [List.foldl_cons, if_neg hc] at h
      cases hreb : rebuildSecondaryIndex c st with
      | error e =>
        rw [hreb, dynFoldGuard_error] at h
        cases h
      | ok s1 =>
        rw [hreb] at h
        obtain ⟨h1, h2, h3⟩ := ih s1 st' h
        obtain ⟨g1, g2, g3⟩ := rebuildSecondaryIndex_ok_fields hreb
        exact ⟨h1.trans g1, h2.trans g2, h3.trans g3⟩

theorem dynFoldPlain_error (cols : List String) (e : DBError) :
    cols.foldl (fun (acc : Except DBError QBTableDynamic) c =>
      match acc with
      | .error e => .error e
      | .ok s => rebuildSecondaryIndex c s) (.error e) = .error e := by
  induction cols with
  | nil => rfl
  | cons c rest ih => exact ih

theorem dynFoldPlain_ok_fields :
    ∀ (cols : List String) (st st' : QBTableDynamic),
      cols.foldl (fun (acc : Except DBError QBTableDynamic) c =>
        match acc with
        | .error e => .error e
        | .ok s => rebuildSecondaryIndex c s) (.ok st) = .ok st' →
      st'.records = st.records ∧ st'.deleted = st.deleted ∧ st'.pkIndex = st.pkIndex := by
  intro cols
  induction cols with
  | nil =>
    intro st st' h
    cases h
    exact ⟨rfl, rfl, rfl⟩
  | cons c rest ih =>
    intro st st' h
    simp only [List.foldl_cons] at h
    cases hreb : rebuildSecondaryIndex c st with
    | error e =>
      rw [hreb, dynFoldPlain_error] at h
      cases h
    | ok s1 =>
      rw [hreb] at h
      obtain ⟨h1, h2, h3⟩ := ih s1 st' h
      obtain ⟨g1, g2, g3⟩ := rebuildSecondaryIndex_ok_fields hreb
      exact ⟨h1.trans g1, h2.trans g2, h3.trans g3⟩

end QBTableDynamic


/-- A primary-key query whose parsed key has no index entry returns empty
(fixed-schema variant). -/
theorem QBTable.findMatching_pk_nolookup {st : QBTable} {k : Nat} {s : String}
    (hs : parseUIntChars s = some k) (h : alookup k st.pkIndex = none) :
    QBTable.findMatching st .column0 s = [] := by
  unfold QBTable.findMatching
  rw [if_pos rfl]
  simp only [hs, h]

/-- A primary-key query whose key has no index entry returns empty (dynamic
variant). -/
theorem QBTableDynamic.findMatching_id_nolookup {dst : QBTableDynamic} {k : Nat}
    (h : alookup k dst.pkIndex = none) :
    QBTableDynamic.findMatching "id" (.u k) dst = .ok [] := by
  unfold QBTableDynamic.findMatching
  rw [if_pos rfl]
  show (match alookup k dst.pkIndex with
    | some i => if !dst.delAt i then Except.ok [dst.recAt i] else .ok []
    | none => .ok []) = .ok []
  rw [h]

/-- C4: for a key resolving to an active record, a soft delete returns `true`,
hides the key from primary-key queries, keeps the total record count and drops
the active count by exactly one; a hard delete on a resolving key returns
`true` and shrinks the total record count by one immediately — in the
fixed-schema variant unconditionally, and in the dynamic variant whenever the
call returns (its index maintenance can throw on unresolvable indexed
columns). -/
theorem claim_C4_soft_hides_hard_shrinks :
    (∀ (st : QBTable) (k idx : Nat),
      st.deleted.length = st.records.length →
      alookup k st.pkIndex = some idx → idx < st.records.length → st.delAt idx = false →
      (QBTable.deleteRecordByID k false st).1 = true
    ∧ (∀ s : String, parseUIntChars s = some k →
        QBTable.findMatching (QBTable.deleteRecordByID k false st).2 .column0 s = [])
    ∧ QBTable.totalRecordsCount (QBTable.deleteRecordByID k false st).2
        = QBTable.totalRecordsCount st
    ∧ QBTable.activeRecordsCount (QBTable.deleteRecordByID k false st).2 + 1
        = QBTable.activeRecordsCount st
    ∧ (QBTable.deleteRecordByID k true st).1 = true
    ∧ QBTable.totalRecordsCount (QBTable.deleteRecordByID k true st).2 + 1
        = QBTable.totalRecordsCount st)
  ∧ (∀ (dst : QBTableDynamic) (k idx : Nat),
      dst.deleted.length = dst.records.length →
      alookup k dst.pkIndex = some idx → idx < dst.records.length → dst.delAt idx = false →
      (∀ (b : Bool) (dst' : QBTableDynamic),
        QBTableDynamic.deleteRecordByID k false dst = .ok (b, dst') →
        b = true
      ∧ QBTableDynamic.findMatching "id" (.u k) dst' = .ok []
      ∧ QBTableDynamic.totalRecordsCount dst' = QBTableDynamic.totalRecordsCount dst
      ∧ QBTableDynamic.activeRecordsCount dst' + 1 = QBTableDynamic.activeRecordsCount dst)
    ∧ (∀ (b : Bool) (dst' : QBTableDynamic),
        QBTableDynamic.deleteRecordByID k true dst = .ok (b, dst') →
        b = true
      ∧ QBTableDynamic.totalRecordsCount dst' + 1 = QBTableDynamic.totalRecordsCount dst)) := by
  have hcount : ∀ (l : List Bool) (idx : Nat), idx < l.length → l.getD idx true = false →
      l.countP (fun d => !d) = (l.set idx true).countP (fun d => !d) + 1 := by
    intro l idx hidx hfalse
    rw [List.countP_set _ _ _ _ hidx]
    have hget : l[idx] = false := by
      rw [List.getD_eq_getElem l true hidx] at hfalse
      exact hfalse
    rw [hget]
    have hpos : 0 < l.countP (fun d => !d) := by
      rw [List.countP_pos]
      exact ⟨false, by rw [← hget]; exact l.getElem_mem hidx, rfl⟩
    simp
    omega
  constructor
  · intro st k idx hlen h hidx hdel
    refine ⟨?_, ?_, ?_, ?_, ?_, ?_⟩
    · rw [QBTable.deleteRecordByID_soft h hdel]
    · intro s hs
      rw [QBTable.deleteRecordByID_soft h hdel]
      exact QBTable.findMatching_pk_nolookup hs (alookup_aerase_self k st.pkIndex)
    · rw [QBTable.deleteRecordByID_soft h hdel]
      rfl
    · rw [QBTable.deleteRecordByID_soft h hdel]
      show (st.deleted.set idx true).countP (fun d => !d) + 1 = st.deleted.countP (fun d => !d)
      exact (hcount st.deleted idx (hlen ▸ hidx) hdel).symm
    · rw [QBTable.deleteRecordByID_hard h]
    · have hrec2 : (QBTable.deleteRecordByID k true st).2.records
          = ((st.records.set idx (st.recAt (st.records.length - 1))).set
            (st.records.length - 1) (st.recAt idx)).dropLast := by
        rw [QBTable.deleteRecordByID_hard h]
        exact (QBTable.rebuildCols_records _ _).trans (QBTable.rebuildPK_records _)
      show (QBTable.deleteRecordByID k true st).2.records.length + 1 = st.records.length
      rw [hrec2]
      simp only [List.length_dropLast, List.length_set]
      omega
  · intro dst k idx hlen h hidx hdel
    constructor
    · intro b dst' hok
      unfold QBTableDynamic.deleteRecordByID at hok
      simp only [h] at hok
      rw [if_neg (by simp [hdel])] at hok
      rw [if_pos (by simp)] at hok
      split at hok
      · cases hok
      · cases hok
        refine ⟨rfl, ?_, rfl, ?_⟩
        · exact QBTableDynamic.findMatching_id_nolookup (alookup_aerase_self k dst.pkIndex)
        · show (dst.deleted.set idx true).countP (fun d => !d) + 1
            = dst.deleted.countP (fun d => !d)
          exact (hcount dst.deleted idx (hlen ▸ hidx) hdel).symm
    · intro b dst' hok
      unfold QBTableDynamic.deleteRecordByID at hok
      simp only [h] at hok
      rw [if_neg (by simp)] at hok
      rw [if_neg (by simp)] at hok
      split at hok
      · cases hok
      · rename_i heq
        cases hok
        obtain ⟨hrec, _, _⟩ := QBTableDynamic.dynFoldGuard_ok_fields _ _ _ heq
        refine ⟨rfl, ?_⟩
        show dst'.records.length + 1 = dst.records.length
        rw [hrec, QBTableDynamic.rebuildPrimaryIndex_records]
        show (if idx = dst.records.length - 1 then dst.records.dropLast
          else ((dst.records.set idx (dst.recAt (dst.records.length - 1))).set
            (dst.records.length - 1) (dst.recAt idx)).dropLast).length + 1
          = dst.records.length
        by_cases hlast : idx = dst.records.length - 1
        · rw [if_pos hlast]
          simp only [List.length_dropLast]
          omega
        · rw [if_neg hlast]
          simp only [List.length_dropLast, List.length_set]
          omega




/-- Witness for C4 at concrete inputs: soft then hard deletion of key 1 in a
two-record table, in both variants. -/
theorem claim_C4_witness :
    (QBTable.deleteRecordByID 1 false c4St).1 = true
  ∧ QBTable.findMatching (QBTable.deleteRecordByID 1 false c4St).2 .column0 "1" = []
  ∧ QBTable.totalRecordsCount (QBTable.deleteRecordByID 1 false c4St).2
      = QBTable.totalRecordsCount c4St
  ∧ QBTable.activeRecordsCount (QBTable.deleteRecordByID 1 false c4St).2 + 1
      = QBTable.activeRecordsCount c4St
  ∧ (QBTable.deleteRecordByID 1 true c4St).1 = true
  ∧ QBTable.totalRecordsCount (QBTable.deleteRecordByID 1 true c4St).2 + 1
      = QBTable.totalRecordsCount c4St
  ∧ QBTableDynamic.findMatching "id" (.u 1)
      { QBTableDynamic.init with
        columns := ["a"]
        records := [⟨1, [("a", .u 0)]⟩, ⟨2, [("a", .u 1)]⟩]
        deleted := [true, false]
        pkIndex := [(2, 1)] } = .ok [] := by
  have h := claim_C4_soft_hides_hard_shrinks.1 c4St 1 0 (by decide) (by decide)
    (by decide) (by decide)
  have hd := (claim_C4_soft_hides_hard_shrinks.2 c4StD 1 0 (by decide) (by decide)
    (by decide) (by decide)).1 true
    { QBTableDynamic.init with
      columns := ["a"]
      records := [⟨1, [("a", .u 0)]⟩, ⟨2, [("a", .u 1)]⟩]
      deleted := [true, false]
      pkIndex := [(2, 1)] } rfl
  exact ⟨h.1, h.2.1 "1" (by decide), h.2.2.1, h.2.2.2.1, h.2.2.2.2.1, h.2.2.2.2.2, hd.2.1⟩



/-- C3 counterexample: on a reachable table holding the record with key 123,
`findMatching` on the primary key with match text `"123abc"` (a valid number
followed by trailing non-numeric characters) returns that record —
`std::from_chars` succeeds on the numeric prefix and `src/Quickbase.cpp` tests
only the error code, so prefix matching does happen. -/
theorem claim_C3_cex_prefix_match_returns_record :
    QBTable.findMatching (QBTable.run [.add ⟨123, "x", 0, "y"⟩]) .column0 "123abc"
      = [⟨123, "x", 0, "y"⟩] := by decide

/-- C3 (amended): a primary-key query whose match text has no valid numeric
prefix returns an empty result (not an error), and any record it returns is an
active record holding exactly the parsed key — but `src/Quickbase.cpp` parses
with `std::from_chars` checking only the error code, so a valid number with
trailing characters is read as its numeric prefix and can return the record
with that key; the revised router of the unnamed source part additionally
requires the whole text to be consumed and returns empty on such inputs. -/
theorem claim_C3_pk_parse_amended :
    (∀ (ops : List Op) (s : String),
      (parseUIntChars s = none → QBTable.findMatching (QBTable.run ops) .column0 s = [])
    ∧ (∀ v : Nat, parseUIntChars s = some v →
        ∀ r : QBRecord, r ∈ QBTable.findMatching (QBTable.run ops) .column0 s →
          r.column0 = v ∧ ∃ i, i < (QBTable.run ops).records.length ∧
            (QBTable.run ops).delAt i = false ∧ (QBTable.run ops).recAt i = r))
  ∧ (∀ (st : QBTable) (s : String), parseUIntFull s = none →
      QBTable.findMatchingB st .column0 s = []) := by
  constructor
  · intro ops s
    constructor
    · intro hs
      unfold QBTable.findMatching
      rw [if_pos rfl]
      simp only [hs]
    · intro v hs r hr
      unfold QBTable.findMatching at hr
      rw [if_pos rfl] at hr
      simp only [hs] at hr
      cases hl : alookup v (QBTable.run ops).pkIndex with
      | none =>
        rw [hl] at hr
        cases hr
      | some i =>
        obtain ⟨h1, h2, h3⟩ := (QBTable.Inv_run ops).pkSound v i hl
        simp only [hl, h2, Bool.not_false, if_true, List.mem_singleton] at hr
        subst hr
        exact ⟨h3, i, h1, h2, rfl⟩
  · intro st s hs
    unfold QBTable.findMatchingB
    rw [if_pos rfl]
    simp only [hs]

/-- Witness for C3's amended theorem at concrete inputs: a non-numeric match
text yields empty on the fresh table, and the revised router rejects
`"123abc"` outright. -/
theorem claim_C3_witness :
    QBTable.findMatching (QBTable.run []) .column0 "abc" = []
  ∧ QBTable.findMatchingB (QBTable.run [.add ⟨123, "x", 0, "y"⟩]) .column0 "123abc" = [] :=
  ⟨(claim_C3_pk_parse_amended.1 [] "abc").1 (by decide),
   claim_C3_pk_parse_amended.2 (QBTable.run [.add ⟨123, "x", 0, "y"⟩]) "123abc" (by decide)⟩



theorem countP_replicate_false (n : Nat) :
    (List.replicate n false).countP (fun d => !d) = n := by
  induction n with
  | zero => rfl
  | succ n ih => simp [List.replicate_succ, List.countP_cons, ih]

theorem length_filter_zip_snd {α : Type} :
    ∀ (R : List α) (D : List Bool), D.length = R.length →
    ((R.zip D).filter (fun rb => !rb.2)).length = D.countP (fun d => !d) := by
  intro R
  induction R with
  | nil =>
    intro D h
    rw [List.length_eq_zero.mp h]
    rfl
  | cons a R' ih =>
    intro D h
    cases D with
    | nil => simp at h
    | cons b D' =>
      have h' : D'.length = R'.length := by simpa using h
      by_cases hb : b
      · subst hb
        simp [List.countP_cons, ih D' h']
      · have hb' : b = false := Bool.eq_false_iff.mpr hb
        subst hb'
        simp [List.countP_cons, ih D' h']

namespace QBTable

theorem rebuildAll_secIdx (st1 : QBTable) (hidx : st1.secIdx = [])
    (c : ColumnType) (key : FieldType) :
    alookup (c, key)
        ((rebuildPrimaryKeyIndex st1).secCols.foldl
          (fun s c => rebuildSecondaryIndexForColumn c s)
          (rebuildPrimaryKeyIndex st1)).secIdx
      = if c ∈ st1.secCols
        then optOfNonempty (canonical
          ((rebuildPrimaryKeyIndex st1).secCols.foldl
            (fun s c => rebuildSecondaryIndexForColumn c s)
            (rebuildPrimaryKeyIndex st1)) c key)
        else none := by
  rw [rebuildCols_secIdx]
  rw [rebuildPK_secCols, rebuildPK_secIdx, hidx]
  by_cases hmem : c ∈ st1.secCols
  · rw [if_pos hmem, if_pos hmem]
    congr 1
    refine canonical_congr ?_ ?_ c key
    · rw [rebuildCols_records]
    · rw [rebuildCols_deleted]
  · rw [if_neg hmem, if_neg hmem]
    rfl

end QBTable

namespace QBTableDynamic

theorem pkFoldD_sound_aux (st : QBTableDynamic) :
    ∀ (n : Nat), n ≤ st.records.length →
    ∀ (m : List (Nat × Nat)),
    (∀ k i, alookup k m = some i →
      i < st.records.length ∧ st.delAt i = false ∧ (st.recAt i).id = k) →
    ∀ k i,
      alookup k ((List.range n).foldl
        (fun m i => if st.delAt i then m else aupsert (st.recAt i).id i m) m) = some i →
      i < st.records.length ∧ st.delAt i = false ∧ (st.recAt i).id = k := by
  intro n
  induction n with
  | zero => intro _ m hm; exact hm
  | succ n ih =>
    intro hn m hm k i
    rw [List.range_succ, List.foldl_append, List.foldl_cons, List.foldl_nil]
    by_cases hd : st.delAt n
    · rw [if_pos hd]
      exact ih (Nat.le_of_succ_le hn) m hm k i
    · rw [if_neg hd]
      by_cases hk : k = (st.recAt n).id
      · subst hk
        rw [alookup_aupsert_self]
        intro hi
        cases hi
        exact ⟨Nat.lt_of_succ_le hn, Bool.eq_false_iff.mpr hd, rfl⟩
      · rw [alookup_aupsert_ne hk]
        exact ih (Nat.le_of_succ_le hn) m hm k i

theorem rebuildPrimaryIndexD_sound (st : QBTableDynamic) :
    ∀ k i, alookup k (rebuildPrimaryIndex st).pkIndex = some i →
      i < st.records.length ∧ st.delAt i = false ∧ (st.recAt i).id = k := by
  intro k i
  exact pkFoldD_sound_aux st st.records.length (Nat.le_refl _) []
    (by intro k i h; cases h) k i

end QBTableDynamic


namespace QBTableDynamic

/-- `canonicalD` depends only on the store, the deleted markers and the
derived columns. -/
theorem canonicalD_congr {st st2 : QBTableDynamic} (hrec : st2.records = st.records)
    (hdel : st2.deleted = st.deleted) (hder : st2.derived = st.derived)
    (c : String) (v : FieldType) :
    canonicalD st2 c v = canonicalD st c v := by
  unfold canonicalD getField delAt recAt
  rw [hrec, hdel, hder]

theorem dynSecFold_lookup (st : QBTableDynamic) (c : String) :
    ∀ (n : Nat) (m m' : List ((String × FieldType) × List Nat)),
    (List.range n).foldl
        (fun (acc : Except DBError (List ((String × FieldType) × List Nat))) i =>
          match acc with
          | .error e => .error e
          | .ok m =>
            if st.delAt i then .ok m
            else
              match st.getField i c with
              | none => .error .unknownColumn
              | some v => .ok (bucketAdd (c, v) i m))
        (.ok m) = .ok m' →
    (∀ k : String × FieldType, ¬ k.1 = c → alookup k m' = alookup k m)
    ∧ (∀ v : FieldType, alookup (c, v) m = none →
        alookup (c, v) m'
          = optOfNonempty ((List.range n).filter
              (fun i => !(st.delAt i) && decide (st.getField i c = some v)))) := by
  intro n
  induction n with
  | zero =>
    intro m m' h
    have h3 : (Except.ok m : Except DBError _) = Except.ok m' := h
    have h2 : m = m' := by injection h3
    subst h2
    exact ⟨fun k _ => rfl, fun v hv => hv⟩
  | succ n ih =>
    intro m m' h
    rw [List.range_succ, List.foldl_append, List.foldl_cons, List.foldl_nil] at h
    cases hprev : (List.range n).foldl
        (fun (acc : Except DBError (List ((String × FieldType) × List Nat))) i =>
          match acc with
          | .error e => .error e
          | .ok m =>
            if st.delAt i then .ok m
            else
              match st.getField i c with
              | none => .error .unknownColumn
              | some v => .ok (bucketAdd (c, v) i m))
        (.ok m) with
    | error e =>
      rw [hprev] at h
      cases h
    | ok mPrev =>
      rw [hprev] at h
      dsimp only [] at h
      obtain ⟨ihOther, ihC⟩ := ih m mPrev hprev
      cases hd : st.delAt n with
      | true =>
        rw [hd, if_pos rfl] at h
        have h2 : mPrev = m' := by injection h
        subst h2
        refine ⟨ihOther, ?_⟩
        intro v hv
        rw [ihC v hv, List.range_succ, List.filter_append,
          show List.filter (fun i => !(st.delAt i) && decide (st.getField i c = some v)) [n]
            = [] from by simp [hd],
          List.append_nil]
      | false =>
        rw [hd, if_neg Bool.false_ne_true] at h
        cases hgf : st.getField n c with
        | none =>
          rw [hgf] at h
          cases h
        | some v0 =>
          rw [hgf] at h
          have h2 : bucketAdd (c, v0) n mPrev = m' := by injection h
          subst h2
          constructor
          · intro k hk
            rw [alookup_bucketAdd_ne (show k ≠ (c, v0) from fun e => hk (by rw [e]))]
            exact ihOther k hk
          · intro v hv
            by_cases hvv : v = v0
            · subst hvv
              rw [alookup_bucketAdd_self, ihC v hv, List.range_succ, List.filter_append,
                show List.filter
                    (fun i => !(st.delAt i) && decide (st.getField i c = some v)) [n]
                  = [n] from by simp [hd, hgf],
                QBTable.optOfNonempty_getD]
              exact (optOfNonempty_of_ne_nil (by simp)).symm
            · rw [alookup_bucketAdd_ne
                  (show ((c, v) : String × FieldType) ≠ (c, v0) from
                    fun e => hvv (congrArg Prod.snd e)),
                ihC v hv, List.range_succ, List.filter_append,
                show List.filter
                    (fun i => !(st.delAt i) && decide (st.getField i c = some v)) [n]
                  = [] from by simp [hd, hgf, Ne.symm hvv],
                List.append_nil]

/-- A successful `rebuildSecondaryIndex` keeps every non-state field, keeps
buckets keyed by other columns, and gives the rebuilt column exactly its
canonical buckets when it had none before. -/
theorem rebuildSecondaryIndexD_lookup {c : String} {st st' : QBTableDynamic}
    (h : rebuildSecondaryIndex c st = .ok st') :
    st'.records = st.records ∧ st'.deleted = st.deleted ∧ st'.derived = st.derived
    ∧ st'.secCols = st.secCols ∧ st'.columns = st.columns ∧ st'.pkIndex = st.pkIndex
    ∧ (∀ k : String × FieldType, ¬ k.1 = c → alookup k st'.secIdx = alookup k st.secIdx)
    ∧ (∀ v : FieldType, alookup (c, v) st.secIdx = none →
        alookup (c, v) st'.secIdx = optOfNonempty (canonicalD st c v)) := by
  unfold rebuildSecondaryIndex at h
  dsimp only [] at h
  split at h
  · cases h
  · rename_i m hm
    have h3 : (Except.ok ({ st with secIdx := m } : QBTableDynamic)
        : Except DBError QBTableDynamic) = Except.ok st' := h
    have h2 : ({ st with secIdx := m } : QBTableDynamic) = st' := by injection h3
    subst h2
    obtain ⟨hOther, hC⟩ := dynSecFold_lookup st c st.records.length st.secIdx m hm
    exact ⟨rfl, rfl, rfl, rfl, rfl, rfl, hOther, hC⟩

/-- Folding `rebuildSecondaryIndex` over pairwise-distinct columns that own no
pre-existing buckets yields exactly the canonical bucket for every (column,
value) pair of those columns and leaves every other lookup unchanged. -/
theorem dynRebuildCols_lookup :
    ∀ (cols : List String) (st st' : QBTableDynamic),
    cols.foldl (fun (acc : Except DBError QBTableDynamic) c =>
        match acc with
        | .error e => .error e
        | .ok s => rebuildSecondaryIndex c s) (.ok st) = .ok st' →
    cols.Nodup →
    (∀ k : String × FieldType, k.1 ∈ cols → alookup k st.secIdx = none) →
    st'.records = st.records ∧ st'.deleted = st.deleted ∧ st'.derived = st.derived
    ∧ ∀ k : String × FieldType,
        alookup k st'.secIdx
          = if k.1 ∈ cols then optOfNonempty (canonicalD st k.1 k.2)
            else alookup k st.secIdx := by
  intro cols
  induction cols with
  | nil =>
    intro st st' h _ _
    have h3 : (Except.ok st : Except DBError QBTableDynamic) = Except.ok st' := h
    have h2 : st = st' := by injection h3
    subst h2
    refine ⟨rfl, rfl, rfl, ?_⟩
    intro k
    rw [if_neg (List.not_mem_nil k.1)]
  | cons c rest ih =>
    intro st st' h hnd hpre
    rw [List.foldl_cons] at h
    replace h : rest.foldl (fun (acc : Except DBError QBTableDynamic) c =>
        match acc with
        | .error e => .error e
        | .ok s => rebuildSecondaryIndex c s) (rebuildSecondaryIndex c st) = .ok st' := h
    cases hreb : rebuildSecondaryIndex c st with
    | error e =>
      rw [hreb, dynFoldPlain_error] at h
      cases h
    | ok s1 =>
      rw [hreb] at h
      obtain ⟨hr1, hd1, hder1, hsc1, hcol1, hpk1, hother, hcv⟩ :=
        rebuildSecondaryIndexD_lookup hreb
      have hnd' : rest.Nodup := (List.nodup_cons.mp hnd).2
      have hcnotin : c ∉ rest := (List.nodup_cons.mp hnd).1
      have hpre' : ∀ k : String × FieldType, k.1 ∈ rest → alookup k s1.secIdx = none := by
        intro k hk
        have hkc : ¬ k.1 = c := fun e => hcnotin (e ▸ hk)
        rw [hother k hkc]
        exact hpre k (List.mem_cons_of_mem c hk)
      obtain ⟨hr2, hd2, hder2, hlook2⟩ := ih s1 st' h hnd' hpre' 
      refine ⟨hr2.trans hr1, hd2.trans hd1, hder2.trans hder1, ?_⟩
      intro k
      obtain ⟨k1, k2⟩ := k
      rw [hlook2 ⟨k1, k2⟩]
      have hcanc : canonicalD s1 k1 k2 = canonicalD st k1 k2 :=
        canonicalD_congr hr1 hd1 hder1 k1 k2
      by_cases hk : k1 ∈ rest
      · rw [if_pos (show (⟨k1, k2⟩ : String × FieldType).1 ∈ rest from hk),
          if_pos (show (⟨k1, k2⟩ : String × FieldType).1 ∈ c :: rest from
            List.mem_cons_of_mem c hk)]
        rw [show (⟨k1, k2⟩ : String × FieldType).1 = k1 from rfl,
          show (⟨k1, k2⟩ : String × FieldType).2 = k2 from rfl, hcanc]
      · rw [if_neg (show ¬ (⟨k1, k2⟩ : String × FieldType).1 ∈ rest from hk)]
        by_cases hkc : k1 = c
        · subst hkc
          rw [if_pos (show (⟨k1, k2⟩ : String × FieldType).1 ∈ k1 :: rest from
            List.mem_cons_self k1 rest)]
          rw [hcv k2 (hpre ⟨k1, k2⟩ (List.mem_cons_self k1 rest))]
        · rw [if_neg (show ¬ (⟨k1, k2⟩ : String × FieldType).1 ∈ c :: rest from
            fun hmem => (List.mem_cons.mp hmem).elim hkc hk)]
          exact hother ⟨k1, k2⟩ hkc

end QBTableDynamic

/-- C7: after `compactRecords()` the backing sequence holds exactly the
previously active records in their original relative order, every deleted
marker is false, the total count equals the previous active count and the new
active count, the primary-key index resolves only to in-range active slots
holding the looked-up key, and each indexed column's bucket for a key holds
exactly the active slots matching that key under the new numbering, with no
bucket for non-indexed columns — in the fixed-schema variant unconditionally,
and in the dynamic variant (whose index rebuild can throw on an unresolvable
indexed column) whenever the call returns normally, with the bucket
characterization under the well-formedness condition that the indexed-column
set holds no duplicates. -/
theorem claim_C7_compaction_postconditions :
    (∀ st : QBTable, st.deleted.length = st.records.length →
      (QBTable.compactRecords st).records = QBTable.activeRecords st
    ∧ (QBTable.compactRecords st).deleted
        = List.replicate (QBTable.activeRecords st).length false
    ∧ QBTable.totalRecordsCount (QBTable.compactRecords st)
        = QBTable.activeRecordsCount st
    ∧ QBTable.activeRecordsCount (QBTable.compactRecords st)
        = QBTable.totalRecordsCount (QBTable.compactRecords st)
    ∧ (∀ k i, alookup k (QBTable.compactRecords st).pkIndex = some i →
        i < (QBTable.compactRecords st).records.length
        ∧ (QBTable.compactRecords st).delAt i = false
        ∧ ((QBTable.compactRecords st).recAt i).column0 = k)
    ∧ (∀ (c : ColumnType) (key : FieldType),
        alookup (c, key) (QBTable.compactRecords st).secIdx
          = if c ∈ st.secCols
            then optOfNonempty
              (QBTable.canonical (QBTable.compactRecords st) c key)
            else none))
  ∧ (∀ dst : QBTableDynamic, dst.deleted.length = dst.records.length →
      ∀ dst' : QBTableDynamic, QBTableDynamic.compactRecords dst = .ok dst' →
      dst'.records
        = ((dst.records.zip dst.deleted).filter (fun rb => !rb.2)).map Prod.fst
    ∧ dst'.deleted = List.replicate dst'.records.length false
    ∧ QBTableDynamic.totalRecordsCount dst' = QBTableDynamic.activeRecordsCount dst
    ∧ QBTableDynamic.activeRecordsCount dst' = QBTableDynamic.totalRecordsCount dst'
    ∧ (∀ k i, alookup k dst'.pkIndex = some i →
        i < dst'.records.length ∧ dst'.delAt i = false ∧ (dst'.recAt i).id = k)
    ∧ (dst.secCols.Nodup →
        ∀ (c : String) (v : FieldType),
          alookup (c, v) dst'.secIdx
            = if c ∈ dst.secCols
              then optOfNonempty (QBTableDynamic.canonicalD dst' c v)
              else none)) := by
  constructor
  · intro st hlen
    have hrec : (QBTable.compactRecords st).records = QBTable.activeRecords st :=
      QBTable.rebuildCols_records _ _
    have hdel : (QBTable.compactRecords st).deleted
        = List.replicate (QBTable.activeRecords st).length false :=
      QBTable.rebuildCols_deleted _ _
    refine ⟨hrec, hdel, ?_, ?_, ?_, ?_⟩
    · show (QBTable.compactRecords st).records.length = st.deleted.countP (fun d => !d)
      rw [hrec]
      show (((st.records.zip st.deleted).filter (fun rb => !rb.2)).map Prod.fst).length
        = st.deleted.countP (fun d => !d)
      rw [List.length_map]
      exact length_filter_zip_snd st.records st.deleted hlen
    · show (QBTable.compactRecords st).deleted.countP (fun d => !d)
        = (QBTable.compactRecords st).records.length
      rw [hrec, hdel, countP_replicate_false]
    · intro k i h
      have hpk : (QBTable.compactRecords st).pkIndex
          = (QBTable.rebuildPrimaryKeyIndex { st with
              records := QBTable.activeRecords st
              deleted := List.replicate (QBTable.activeRecords st).length false
              secIdx := [] }).pkIndex :=
        QBTable.rebuildCols_pkIndex _ _
      rw [hpk] at h
      obtain ⟨h1, h2, h3⟩ := QBTable.rebuildPK_sound _ k i h
      refine ⟨?_, ?_, ?_⟩
      · rw [hrec]; exact h1
      · show (QBTable.compactRecords st).deleted.getD i true = false
        rw [hdel]; exact h2
      · show ((QBTable.compactRecords st).records.getD i default).column0 = k
        rw [hrec]; exact h3
    · intro c key
      exact QBTable.rebuildAll_secIdx { st with
          records := ((st.records.zip st.deleted).filter (fun rb => !rb.2)).map Prod.fst
          deleted := List.replicate
            (((st.records.zip st.deleted).filter (fun rb => !rb.2)).map
              Prod.fst).length false
          secIdx := [] } rfl c key
  · intro dst hlen dst' hok
    unfold QBTableDynamic.compactRecords at hok
    obtain ⟨h1, h2, h3⟩ := QBTableDynamic.dynFoldPlain_ok_fields _ _ _ hok
    have hrec : dst'.records
        = ((dst.records.zip dst.deleted).filter (fun rb => !rb.2)).map Prod.fst := h1
    have hdel : dst'.deleted
        = List.replicate
            (((dst.records.zip dst.deleted).filter (fun rb => !rb.2)).map
              Prod.fst).length
            false := h2
    refine ⟨hrec, ?_, ?_, ?_, ?_, ?_⟩
    · rw [hdel, hrec]
    · show dst'.records.length = dst.deleted.countP (fun d => !d)
      rw [hrec, List.length_map]
      exact length_filter_zip_snd dst.records dst.deleted hlen
    · show dst'.deleted.countP (fun d => !d) = dst'.records.length
      rw [hdel, hrec, countP_replicate_false, List.length_map]
    · intro k i h
      rw [h3] at h
      obtain ⟨g1, g2, g3⟩ := QBTableDynamic.rebuildPrimaryIndexD_sound _ k i h
      refine ⟨?_, ?_, ?_⟩
      · rw [hrec]; exact g1
      · show dst'.deleted.getD i true = false
        rw [hdel]; exact g2
      · show (dst'.records.getD i default).id = k
        rw [hrec]; exact g3
    · intro hndyn c v
      obtain ⟨g1b, g2b, g3b, hlook⟩ :=
        QBTableDynamic.dynRebuildCols_lookup _ _ _ hok hndyn (fun k _ => rfl)
      rw [hlook (c, v), QBTableDynamic.canonicalD_congr g1b g2b g3b c v]
      rfl

/-- Witness for C7 at concrete inputs: a two-record static table with an
index on `column1` and one soft-deleted record, and a two-record dynamic
table with one soft-deleted record. -/
theorem claim_C7_witness :
    (QBTable.compactRecords c7St).records = QBTable.activeRecords c7St
  ∧ QBTable.totalRecordsCount (QBTable.compactRecords c7St)
      = QBTable.activeRecordsCount c7St
  ∧ alookup (ColumnType.column1, FieldType.s "a") (QBTable.compactRecords c7St).secIdx
      = (if ColumnType.column1 ∈ c7St.secCols
        then optOfNonempty
          (QBTable.canonical (QBTable.compactRecords c7St) ColumnType.column1
            (FieldType.s "a"))
        else none)
  ∧ QBTableDynamic.compactRecords c7StD = .ok c7StDC
  ∧ c7StDC.deleted = List.replicate c7StDC.records.length false
  ∧ QBTableDynamic.totalRecordsCount c7StDC
      = QBTableDynamic.activeRecordsCount c7StD
  ∧ alookup ("a", FieldType.u 1) c7StDC.secIdx
      = (if "a" ∈ c7StD.secCols
        then optOfNonempty (QBTableDynamic.canonicalD c7StDC "a" (FieldType.u 1))
        else none) := by
  have h1 := claim_C7_compaction_postconditions.1 c7St (by decide)
  have hok : QBTableDynamic.compactRecords c7StD = .ok c7StDC := rfl
  have h2 := claim_C7_compaction_postconditions.2 c7StD rfl c7StDC hok
  exact ⟨h1.1, h1.2.2.1, h1.2.2.2.2.2 ColumnType.column1 (FieldType.s "a"),
    hok, h2.2.1, h2.2.2.1,
    h2.2.2.2.2.2 (by decide) "a" (FieldType.u 1)⟩



theorem boole_le_countP {α : Type} (p : α → Bool) (l : List α) (i : Nat) (d : α)
    (hi : i < l.length) :
    (if p (l.getD i d) = true then 1 else 0) ≤ l.countP p := by
  by_cases h : p (l.getD i d) = true
  · rw [if_pos h]
    refine List.countP_pos_iff.mpr ⟨l.getD i d, ?_, h⟩
    rw [List.getD_eq_getElem l d hi]
    exact List.getElem_mem hi
  · rw [if_neg h]
    exact Nat.zero_le _

theorem two_le_countP {α : Type} (p : α → Bool) (d : α) :
    ∀ (l : List α) (i j : Nat), i < j → j < l.length →
    p (l.getD i d) = true → p (l.getD j d) = true → 2 ≤ l.countP p := by
  intro l
  induction l with
  | nil => intro i j hij hj _ _; simp at hj
  | cons a t ih =>
    intro i j hij hj hpi hpj
    cases j with
    | zero => omega
    | succ j0 =>
      have hj0 : j0 < t.length := by simpa using hj
      have hpj0 : p (t.getD j0 d) = true := by simpa using hpj
      cases i with
      | zero =>
        have hpa : p a = true := by simpa using hpi
        have hmem : t.getD j0 d ∈ t := by
          rw [List.getD_eq_getElem t d hj0]
          exact List.getElem_mem hj0
        have hpos : 0 < t.countP p := List.countP_pos_iff.mpr ⟨_, hmem, hpj0⟩
        rw [List.countP_cons, hpa, if_pos rfl]
        omega
      | succ i0 =>
        have := ih i0 j0 (by omega) hj0 (by simpa using hpi) hpj0
        rw [List.countP_cons]
        omega

theorem zip_set {α β : Type} :
    ∀ (R : List α) (D : List β) (i : Nat) (x : α) (y : β),
    (R.set i x).zip (D.set i y) = (R.zip D).set i (x, y) := by
  intro R
  induction R with
  | nil => intro D i x y; simp
  | cons a R' ih =>
    intro D i x y
    cases D with
    | nil => simp
    | cons b D' =>
      cases i with
      | zero => simp
      | succ i0 => simp [ih]

theorem getD_zip {α β : Type} :
    ∀ (R : List α) (D : List β), R.length = D.length →
    ∀ (i : Nat) (d1 : α) (d2 : β),
    (R.zip D).getD i (d1, d2) = (R.getD i d1, D.getD i d2) := by
  intro R
  induction R with
  | nil =>
    intro D h i d1 d2
    rw [(List.length_eq_zero.mp h.symm : D = [])]
    simp
  | cons a R' ih =>
    intro D h i d1 d2
    cases D with
    | nil => simp at h
    | cons b D' =>
      have h' : R'.length = D'.length := by simpa using h
      cases i with
      | zero => simp
      | succ i0 => simpa using ih D' h' i0 d1 d2

theorem countP_zip_dropLast_le {α β : Type} (p : α × β → Bool) (X : List α) (Y : List β)
    (h : X.length = Y.length) :
    ((X.dropLast).zip (Y.dropLast)).countP p ≤ (X.zip Y).countP p := by
  rw [List.dropLast_eq_take, List.dropLast_eq_take, h]
  rw [show (X.take (Y.length - 1)).zip (Y.take (Y.length - 1))
      = (X.zip Y).take (Y.length - 1) from (List.take_zipWith).symm]
  exact (List.take_sublist _ _).countP_le p

theorem countP_set_set_eq {α : Type} (p : α → Bool) (l : List α) (i j : Nat) (d : α)
    (hi : i < l.length) (hj : j < l.length) :
    ((l.set i (l.getD j d)).set j (l.getD i d)).countP p = l.countP p := by
  by_cases hij : i = j
  · subst hij
    rw [List.set_set]
    rw [List.countP_set p l i _ hi]
    rw [List.getD_eq_getElem l d hi]
    have hA := boole_le_countP p l i d hi
    rw [List.getD_eq_getElem l d hi] at hA
    omega
  · have hj2 : j < (l.set i (l.getD j d)).length := by simpa using hj
    rw [List.countP_set p _ j _ hj2]
    rw [List.countP_set p l i _ hi]
    have hgj : (l.set i (l.getD j d))[j] = l[j] := List.getElem_set_ne hij hj2
    rw [hgj]
    rw [List.getD_eq_getElem l d hi, List.getD_eq_getElem l d hj]
    have hA := boole_le_countP p l i d hi
    rw [List.getD_eq_getElem l d hi] at hA
    have hB := boole_le_countP p l j d hj
    rw [List.getD_eq_getElem l d hj] at hB
    omega

theorem countP_zip_set_true {α : Type} (q : α → Bool) :
    ∀ (R : List α) (D : List Bool) (i : Nat),
    (R.zip (D.set i true)).countP (fun rb => !rb.2 && q rb.1)
      ≤ (R.zip D).countP (fun rb => !rb.2 && q rb.1) := by
  intro R
  induction R with
  | nil => intro D i; simp
  | cons a R' ih =>
    intro D i
    cases D with
    | nil => simp
    | cons b D' =>
      cases i with
      | zero =>
        simp only [List.set_cons_zero, List.zip_cons_cons, List.countP_cons]
        have h0 : (!(true : Bool) && q a) = false := by simp
        rw [h0, if_neg (show ¬((false : Bool) = true) by simp), Nat.add_zero]
        exact Nat.le_add_right _ _
      | succ i0 =>
        simp only [List.set_cons_succ, List.zip_cons_cons, List.countP_cons]
        have h := ih D' i0
        omega

theorem countP_zip_replicate_false {α : Type} (q : α → Bool) :
    ∀ (M : List α),
    (M.zip (List.replicate M.length false)).countP (fun rb => !rb.2 && q rb.1)
      = M.countP q := by
  intro M
  induction M with
  | nil => rfl
  | cons a t ih =>
    simp only [List.length_cons, List.replicate_succ, List.zip_cons_cons, List.countP_cons, ih]
    simp

namespace QBTable

theorem createIndex_records (c : ColumnType) (st : QBTable) :
    (createIndex c st).records = st.records := by
  unfold createIndex
  split
  · rfl
  · split
    · rfl
    · rfl

theorem createIndex_deleted (c : ColumnType) (st : QBTable) :
    (createIndex c st).deleted = st.deleted := by
  unfold createIndex
  split
  · rfl
  · split
    · rfl
    · rfl

theorem dropIndex_records (c : ColumnType) (st : QBTable) :
    (dropIndex c st).records = st.records := by
  unfold dropIndex
  split
  · rfl
  · rfl

theorem dropIndex_deleted (c : ColumnType) (st : QBTable) :
    (dropIndex c st).deleted = st.deleted := by
  unfold dropIndex
  split
  · rfl
  · rfl

theorem pkCount_step_le (st : QBTable) (hinv : Inv st) (op : Op) (k : Nat) :
    ((step st op).records.zip (step st op).deleted).countP
        (fun rb => !rb.2 && decide (rb.1.column0 = k))
      ≤ (st.records.zip st.deleted).countP
          (fun rb => !rb.2 && decide (rb.1.column0 = k))
        + (Op.addedPK op).count k := by
  cases op with
  | add r =>
    show ((addRecord r st).records.zip (addRecord r st).deleted).countP _ ≤ _
    rw [addRecord_records, addRecord_deleted,
      List.zip_append hinv.lenEq.symm, List.countP_append]
    show _ + ([(r, false)].countP _) ≤ _ + ([r.column0].count k)
    by_cases hc : r.column0 = k
    · simp [List.countP_cons, List.count_cons, hc]
    · simp [List.countP_cons, List.count_cons, hc]
  | del kk hard =>
    show ((deleteRecordByID kk hard st).2.records.zip
        (deleteRecordByID kk hard st).2.deleted).countP _ ≤ _
    cases hl : alookup kk st.pkIndex with
    | none =>
      rw [deleteRecordByID_none hl]
      exact Nat.le_add_right _ _
    | some idx =>
      obtain ⟨hidx, hdelidx, hkeyidx⟩ := hinv.pkSound kk idx hl
      cases hard with
      | false =>
        cases hd : st.delAt idx with
        | true =>
          rw [deleteRecordByID_soft_already hl hd]
          exact Nat.le_add_right _ _
        | false =>
          rw [deleteRecordByID_soft hl hd]
          refine le_trans ?_ (Nat.le_add_right _ _)
          exact countP_zip_set_true (fun r => decide (r.column0 = k)) st.records st.deleted idx
      | true =>
        rw [deleteRecordByID_hard hl]
        refine le_trans ?_ (Nat.le_add_right _ _)
        have hR : ((rebuildPrimaryKeyIndex { st with
            records := ((st.records.set idx (st.recAt (st.records.length - 1))).set
              (st.records.length - 1) (st.recAt idx)).dropLast
            deleted := ((st.deleted.set idx (st.delAt (st.records.length - 1))).set
              (st.records.length - 1) (st.delAt idx)).dropLast }).secCols.foldl
            (fun s c => rebuildSecondaryIndexForColumn c s)
            (rebuildPrimaryKeyIndex { st with
              records := ((st.records.set idx (st.recAt (st.records.length - 1))).set
                (st.records.length - 1) (st.recAt idx)).dropLast
              deleted := ((st.deleted.set idx (st.delAt (st.records.length - 1))).set
                (st.records.length - 1) (st.delAt idx)).dropLast })).records
            = ((st.records.set idx (st.recAt (st.records.length - 1))).set
              (st.records.length - 1) (st.recAt idx)).dropLast :=
          rebuildCols_records _ _
        have hD : ((rebuildPrimaryKeyIndex { st with
            records := ((st.records.set idx (st.recAt (st.records.length - 1))).set
              (st.records.length - 1) (st.recAt idx)).dropLast
            deleted := ((st.deleted.set idx (st.delAt (st.records.length - 1))).set
              (st.records.length - 1) (st.delAt idx)).dropLast }).secCols.foldl
            (fun s c => rebuildSecondaryIndexForColumn c s)
            (rebuildPrimaryKeyIndex { st with
              records := ((st.records.set idx (st.recAt (st.records.length - 1))).set
                (st.records.length - 1) (st.recAt idx)).dropLast
              deleted := ((st.deleted.set idx (st.delAt (st.records.length - 1))).set
                (st.records.length - 1) (st.delAt idx)).dropLast })).deleted
            = ((st.deleted.set idx (st.delAt (st.records.length - 1))).set
              (st.records.length - 1) (st.delAt idx)).dropLast :=
          rebuildCols_deleted _ _
        rw [hR, hD]
        refine le_trans (countP_zip_dropLast_le _ _ _ (by simp [hinv.lenEq])) ?_
        rw [show ((st.records.set idx (st.recAt (st.records.length - 1))).set
              (st.records.length - 1) (st.recAt idx)).zip
            ((st.deleted.set idx (st.delAt (st.records.length - 1))).set
              (st.records.length - 1) (st.delAt idx))
            = (((st.records.zip st.deleted).set idx
                (st.recAt (st.records.length - 1), st.delAt (st.records.length - 1))).set
                (st.records.length - 1) (st.recAt idx, st.delAt idx)) from by
          rw [zip_set, zip_set]]
        have hzlen : (st.records.zip st.deleted).length = st.records.length := by
          simp [hinv.lenEq]
        have hlast : st.records.length - 1 < st.records.length := by omega
        have hgzl : (st.records.zip st.deleted).getD (st.records.length - 1) (default, true)
            = (st.recAt (st.records.length - 1), st.delAt (st.records.length - 1)) :=
          getD_zip st.records st.deleted hinv.lenEq.symm _ default true
        have hgzi : (st.records.zip st.deleted).getD idx (default, true)
            = (st.recAt idx, st.delAt idx) :=
          getD_zip st.records st.deleted hinv.lenEq.symm _ default true
        rw [← hgzl, ← hgzi]
        exact Nat.le_of_eq (countP_set_set_eq _ (st.records.zip st.deleted) idx
          (st.records.length - 1) (default, true) (by omega) (by omega))
  | mkIdx c =>
    show ((createIndex c st).records.zip (createIndex c st).deleted).countP _ ≤ _
    rw [createIndex_records, createIndex_deleted]
    exact Nat.le_add_right _ _
  | rmIdx c =>
    show ((dropIndex c st).records.zip (dropIndex c st).deleted).countP _ ≤ _
    rw [dropIndex_records, dropIndex_deleted]
    exact Nat.le_add_right _ _
  | compact =>
    show ((compactRecords st).records.zip (compactRecords st).deleted).countP _ ≤ _
    have hrec : (compactRecords st).records = activeRecords st :=
      rebuildCols_records _ _
    have hdel : (compactRecords st).deleted
        = List.replicate (activeRecords st).length false :=
      rebuildCols_deleted _ _
    rw [hrec, hdel,
      countP_zip_replicate_false (fun r => decide (r.column0 = k)) st.activeRecords]
    refine le_trans ?_ (Nat.le_add_right _ _)
    show (((st.records.zip st.deleted).filter (fun rb => !rb.2)).map Prod.fst).countP
        (fun r => decide (r.column0 = k)) ≤ _
    rw [List.countP_map, List.countP_filter]
    exact Nat.le_of_eq (List.countP_congr (by
      intro rb _
      show (decide (rb.1.column0 = k) && !rb.2) = true ↔ (!rb.2 && decide (rb.1.column0 = k)) = true
      rw [Bool.and_comm]))

theorem pkCount_run_le (k : Nat) :
    ∀ (ops : List Op) (st : QBTable), Inv st →
    ((ops.foldl step st).records.zip (ops.foldl step st).deleted).countP
        (fun rb => !rb.2 && decide (rb.1.column0 = k))
      ≤ (st.records.zip st.deleted).countP
          (fun rb => !rb.2 && decide (rb.1.column0 = k))
        + (addedPKs ops).count k := by
  intro ops
  induction ops with
  | nil =>
    intro st _
    simp [addedPKs]
  | cons op rest ih =>
    intro st hinv
    rw [List.foldl_cons]
    have h1 := ih (step st op) (Inv_step hinv op)
    have h2 := pkCount_step_le st hinv op k
    have hadd : (addedPKs (op :: rest)).count k
        = (Op.addedPK op).count k + (addedPKs rest).count k := by
      simp [addedPKs, List.count_append]
    omega

theorem pk_dup_impossible (ops : List Op) (hnd : (addedPKs ops).Nodup) :
    ∀ i j, i < j → j < (run ops).records.length →
    (run ops).delAt i = false → (run ops).delAt j = false →
    ((run ops).recAt i).column0 = ((run ops).recAt j).column0 → False := by
  intro i j hij hj hdi hdj hk
  have hinv := Inv_run ops
  have hlen := hinv.lenEq
  have hzlen : ((run ops).records.zip (run ops).deleted).length
      = (run ops).records.length := by
    simp [hlen]
  have hgi : ((run ops).records.zip (run ops).deleted).getD i (default, true)
      = ((run ops).recAt i, (run ops).delAt i) :=
    getD_zip _ _ hlen.symm i default true
  have hgj : ((run ops).records.zip (run ops).deleted).getD j (default, true)
      = ((run ops).recAt j, (run ops).delAt j) :=
    getD_zip _ _ hlen.symm j default true
  have h2 : 2 ≤ ((run ops).records.zip (run ops).deleted).countP
      (fun rb => !rb.2 && decide (rb.1.column0 = ((run ops).recAt j).column0)) := by
    refine two_le_countP _ (default, true) _ i j hij (by omega) ?_ ?_
    · rw [hgi]
      simp [hdi, hk]
    · rw [hgj]
      simp [hdj]
  have hrun := pkCount_run_le ((run ops).recAt j).column0 ops init Inv_init
  have hz : ((init.records.zip init.deleted)).countP
      (fun rb => !rb.2 && decide (rb.1.column0 = ((run ops).recAt j).column0)) = 0 := rfl
  have hc1 : (addedPKs ops).count ((run ops).recAt j).column0 ≤ 1 :=
    List.nodup_iff_count_le_one.mp hnd _
  have hfold : (ops.foldl step init) = run ops := rfl
  rw [hfold, hz] at hrun
  omega

end QBTable


namespace QBTableDynamic

theorem countP_zip_map_id (f : QBRecordDynamic → QBRecordDynamic)
    (hid : ∀ r, (f r).id = r.id) (R : List QBRecordDynamic) (D : List Bool) (k : Nat) :
    ((R.map f).zip D).countP (fun rb => !rb.2 && decide (rb.1.id = k))
      = (R.zip D).countP (fun rb => !rb.2 && decide (rb.1.id = k)) := by
  rw [List.zip_map_left, List.countP_map]
  refine List.countP_congr ?_
  intro rb _
  show (!rb.2 && decide ((f rb.1).id = k)) = true ↔ _
  rw [hid]

theorem idCount_stepD_le (k : Nat) (st : QBTableDynamic)
    (hlen : st.deleted.length = st.records.length) :
    ∀ (op : OpD) (st2 : QBTableDynamic), stepD st op = some st2 →
    st2.deleted.length = st2.records.length
    ∧ (st2.records.zip st2.deleted).countP (fun rb => !rb.2 && decide (rb.1.id = k))
      ≤ (st.records.zip st.deleted).countP (fun rb => !rb.2 && decide (rb.1.id = k))
        + (OpD.addedId op).count k := by
  intro op
  cases op with
  | addCol n d =>
    intro st2 h
    have h2 : (addColumn n d st).2 = st2 := by
      injection h
    subst h2
    unfold addColumn
    split
    · exact ⟨hlen, Nat.le_add_right _ _⟩
    · refine ⟨by simpa using hlen, ?_⟩
      refine le_trans (Nat.le_of_eq ?_) (Nat.le_add_right _ _)
      refine countP_zip_map_id (fun r =>
        if (alookup n r.fields).isSome then r
        else { r with fields := r.fields ++ [(n, d)] }) ?_ st.records st.deleted k
      intro r
      dsimp only []
      split
      · rfl
      · rfl
  | rmCol n =>
    intro st2 h
    have h2 : removeColumn n st = st2 := by
      injection h
    subst h2
    unfold removeColumn
    refine ⟨by simpa using hlen, ?_⟩
    refine le_trans (Nat.le_of_eq ?_) (Nat.le_add_right _ _)
    exact countP_zip_map_id (fun r =>
        { r with fields := r.fields.filter (fun kv => !decide (kv.1 = n)) })
      (fun r => rfl) st.records st.deleted k
  | addDerived n f =>
    intro st2 h
    have h2 : (addDerivedColumn n f st).2 = st2 := by
      injection h
    subst h2
    unfold addDerivedColumn
    split
    · exact ⟨hlen, Nat.le_add_right _ _⟩
    · exact ⟨hlen, Nat.le_add_right _ _⟩
  | add r =>
    intro st2 h
    replace h : ((addRecord r st).toOption).map (fun x => x.2) = some st2 := h
    show st2.deleted.length = st2.records.length ∧ _ ≤ _ + ([r.id].count k)
    unfold addRecord at h
    by_cases hrej : (r.fields.any (fun kv => !(kv.1 ∈ st.columns : Bool))) = true
    · rw [if_pos hrej] at h
      have h3 : some st = some st2 := h
      have h2 : st = st2 := by injection h3
      subst h2
      exact ⟨hlen, Nat.le_add_right _ _⟩
    · rw [if_neg hrej] at h
      dsimp only [] at h
      split at h
      · exact absurd (show (none : Option QBTableDynamic) = some st2 from h)
          (by intro hcon; cases hcon)
      · rename_i m hm
        have h3 : some ({ st with
            records := st.records ++ [r]
            deleted := st.deleted ++ [false]
            pkIndex := aupsert r.id st.records.length st.pkIndex
            secIdx := m } : QBTableDynamic) = some st2 := h
        have h2 : ({ st with
            records := st.records ++ [r]
            deleted := st.deleted ++ [false]
            pkIndex := aupsert r.id st.records.length st.pkIndex
            secIdx := m } : QBTableDynamic) = st2 := by injection h3
        subst h2
        refine ⟨by simp [hlen], ?_⟩
        show ((st.records ++ [r]).zip (st.deleted ++ [false])).countP _ ≤ _
        rw [List.zip_append hlen.symm, List.countP_append]
        by_cases hc : r.id = k
        · simp [List.countP_cons, List.count_cons, hc]
        · simp [List.countP_cons, List.count_cons, hc]
  | mkIdx c =>
    intro st2 h
    replace h : (createIndex c st).toOption = some st2 := h
    unfold createIndex at h
    split at h
    · exact absurd (show (none : Option QBTableDynamic) = some st2 from h)
        (by intro hcon; cases hcon)
    · split at h
      · have h3 : some st = some st2 := h
        have h2 : st = st2 := by injection h3
        subst h2
        exact ⟨hlen, Nat.le_add_right _ _⟩
      · cases hr : rebuildSecondaryIndex c { st with secCols := st.secCols ++ [c] } with
        | error e =>
          rw [hr] at h
          exact absurd (show (none : Option QBTableDynamic) = some st2 from h)
            (by intro hcon; cases hcon)
        | ok s =>
          rw [hr] at h
          have h3 : some s = some st2 := h
          have h2 : s = st2 := by injection h3
          subst h2
          obtain ⟨g1, g2, g3⟩ := rebuildSecondaryIndex_ok_fields hr
          rw [show ({ st with secCols := st.secCols ++ [c] } : QBTableDynamic).records
              = st.records from rfl] at g1
          rw [show ({ st with secCols := st.secCols ++ [c] } : QBTableDynamic).deleted
              = st.deleted from rfl] at g2
          rw [g1, g2]
          exact ⟨hlen, Nat.le_add_right _ _⟩
  | rmIdx c =>
    intro st2 h
    replace h : (dropIndex c st).toOption = some st2 := h
    unfold dropIndex at h
    split at h
    · exact absurd (show (none : Option QBTableDynamic) = some st2 from h)
        (by intro hcon; cases hcon)
    · have h3 : some ({ st with
          secCols := st.secCols.filter (fun x => !decide (x = c))
          secIdx := st.secIdx.filter (fun kv => !decide (kv.1.1 = c)) } : QBTableDynamic)
          = some st2 := h
      have h2 : ({ st with
          secCols := st.secCols.filter (fun x => !decide (x = c))
          secIdx := st.secIdx.filter (fun kv => !decide (kv.1.1 = c)) } : QBTableDynamic)
          = st2 := by injection h3
      subst h2
      exact ⟨hlen, Nat.le_add_right _ _⟩
  | compact =>
    intro st2 h
    replace h : (compactRecords st).toOption = some st2 := h
    cases hc : compactRecords st with
    | error e =>
      rw [hc] at h
      exact absurd (show (none : Option QBTableDynamic) = some st2 from h)
        (by intro hcon; cases hcon)
    | ok s =>
      rw [hc] at h
      have h3 : some s = some st2 := h
      have h2 : s = st2 := by injection h3
      subst h2
      unfold compactRecords at hc
      obtain ⟨g1, g2, g3⟩ := dynFoldPlain_ok_fields _ _ _ hc
      have hrec : s.records
          = ((st.records.zip st.deleted).filter (fun rb => !rb.2)).map Prod.fst := g1
      have hdel2 : s.deleted
          = List.replicate
              (((st.records.zip st.deleted).filter (fun rb => !rb.2)).map
                Prod.fst).length false := g2
      rw [hrec, hdel2]
      refine ⟨by simp, ?_⟩
      rw [countP_zip_replicate_false (fun r => decide (r.id = k))
        (((st.records.zip st.deleted).filter (fun rb => !rb.2)).map Prod.fst)]
      refine le_trans ?_ (Nat.le_add_right _ _)
      rw [List.countP_map, List.countP_filter]
      exact Nat.le_of_eq (List.countP_congr (by
        intro rb _
        show (decide (rb.1.id = k) && !rb.2) = true ↔ (!rb.2 && decide (rb.1.id = k)) = true
        rw [Bool.and_comm]))
  | del kk hard =>
    intro st2 h
    replace h : ((deleteRecordByID kk hard st).toOption).map (fun x => x.2) = some st2 := h
    unfold deleteRecordByID at h
    cases hl : alookup kk st.pkIndex with
    | none =>
      rw [hl] at h
      have h3 : some st = some st2 := h
      have h2 : st = st2 := by injection h3
      subst h2
      exact ⟨hlen, Nat.le_add_right _ _⟩
    | some idx =>
      rw [hl] at h
      dsimp only [] at h
      by_cases hsoftskip : ((!hard : Bool) ∧ st.delAt idx)
      · rw [if_pos hsoftskip] at h
        have h3 : some st = some st2 := h
        have h2 : st = st2 := by injection h3
        subst h2
        exact ⟨hlen, Nat.le_add_right _ _⟩
      · rw [if_neg hsoftskip] at h
        by_cases hhard : (!hard : Bool) = true
        · rw [if_pos hhard] at h
          cases hrm : removeSlotFromIndexedColumns idx
              { st with deleted := st.deleted.set idx true } with
          | error e =>
            rw [hrm] at h
            exact absurd (show (none : Option QBTableDynamic) = some st2 from h)
              (by intro hcon; cases hcon)
          | ok m =>
            rw [hrm] at h
            have h3 : some ({ st with
                deleted := st.deleted.set idx true
                pkIndex := aerase kk st.pkIndex
                secIdx := m } : QBTableDynamic) = some st2 := h
            have h2 : ({ st with
                deleted := st.deleted.set idx true
                pkIndex := aerase kk st.pkIndex
                secIdx := m } : QBTableDynamic) = st2 := by injection h3
            subst h2
            refine ⟨by simp [hlen], ?_⟩
            refine le_trans ?_ (Nat.le_add_right _ _)
            exact countP_zip_set_true (fun r => decide (r.id = k)) st.records st.deleted idx
        · rw [if_neg hhard] at h
          split at h
          · exact absurd (show (none : Option QBTableDynamic) = some st2 from h)
              (by intro hcon; cases hcon)
          · rename_i st4 hst4
            have h3 : some st4 = some st2 := h
            have h2 : st4 = st2 := by injection h3
            subst h2
            obtain ⟨g1, g2, g3⟩ := dynFoldGuard_ok_fields _ _ _ hst4
            have hrec : st4.records
                = (if idx = st.records.length - 1 then st.records.dropLast else
                    ((st.records.set idx (st.recAt (st.records.length - 1))).set
                      (st.records.length - 1) (st.recAt idx)).dropLast) := g1
            have hdel2 : st4.deleted
                = (if idx = st.records.length - 1 then st.deleted.dropLast else
                    ((st.deleted.set idx (st.delAt (st.records.length - 1))).set
                      (st.records.length - 1) (st.delAt idx)).dropLast) := g2
            rw [hrec, hdel2]
            by_cases hil : idx = st.records.length - 1
            · rw [show (if idx = st.records.length - 1 then st.records.dropLast else
                  ((st.records.set idx (st.recAt (st.records.length - 1))).set
                    (st.records.length - 1) (st.recAt idx)).dropLast) = st.records.dropLast
                  from if_pos hil,
                show (if idx = st.records.length - 1 then st.deleted.dropLast else
                  ((st.deleted.set idx (st.delAt (st.records.length - 1))).set
                    (st.records.length - 1) (st.delAt idx)).dropLast) = st.deleted.dropLast
                  from if_pos hil]
              refine ⟨by simp [hlen], ?_⟩
              exact le_trans (countP_zip_dropLast_le _ _ _ hlen.symm) (Nat.le_add_right _ _)
            · rw [show (if idx = st.records.length - 1 then st.records.dropLast else
                  ((st.records.set idx (st.recAt (st.records.length - 1))).set
                    (st.records.length - 1) (st.recAt idx)).dropLast)
                  = ((st.records.set idx (st.recAt (st.records.length - 1))).set
                    (st.records.length - 1) (st.recAt idx)).dropLast from if_neg hil,
                show (if idx = st.records.length - 1 then st.deleted.dropLast else
                  ((st.deleted.set idx (st.delAt (st.records.length - 1))).set
                    (st.records.length - 1) (st.delAt idx)).dropLast)
                  = ((st.deleted.set idx (st.delAt (st.records.length - 1))).set
                    (st.records.length - 1) (st.delAt idx)).dropLast from if_neg hil]
              refine ⟨by simp [hlen], ?_⟩
              refine le_trans (countP_zip_dropLast_le _ _ _ (by simp [hlen])) ?_
              refine le_trans ?_ (Nat.le_add_right _ _)
              rw [zip_set, zip_set]
              rcases Nat.eq_zero_or_pos st.records.length with hz | hpos
              · have hR : st.records = [] := List.length_eq_zero.mp hz
                have hD : st.deleted = [] := List.length_eq_zero.mp (by omega)
                simp [hR, hD]
              · have hzlen : (st.records.zip st.deleted).length = st.records.length := by
                  simp [hlen]
                have hlast : st.records.length - 1 < st.records.length := by omega
                by_cases hrange : idx < st.records.length
                · have hgzl : (st.records.zip st.deleted).getD (st.records.length - 1)
                      (default, true)
                      = (st.recAt (st.records.length - 1),
                          st.delAt (st.records.length - 1)) :=
                    getD_zip st.records st.deleted hlen.symm _ default true
                  have hgzi : (st.records.zip st.deleted).getD idx (default, true)
                      = (st.recAt idx, st.delAt idx) :=
                    getD_zip st.records st.deleted hlen.symm _ default true
                  rw [← hgzl, ← hgzi]
                  exact Nat.le_of_eq (countP_set_set_eq _ (st.records.zip st.deleted) idx
                    (st.records.length - 1) (default, true) (by omega) (by omega))
                · have hsetZ : (st.records.zip st.deleted).set idx
                      (st.recAt (st.records.length - 1), st.delAt (st.records.length - 1))
                      = st.records.zip st.deleted :=
                    List.set_eq_of_length_le (by rw [List.length_zip]; omega)
                  rw [hsetZ]
                  have hlenout : st.deleted.length ≤ idx := by omega
                  have hdelout : st.delAt idx = true := by
                    show st.deleted.getD idx true = true
                    exact List.getD_eq_default st.deleted true hlenout
                  have hlast2 : st.records.length - 1
                      < (st.records.zip st.deleted).length := by
                    rw [List.length_zip]
                    omega
                  rw [List.countP_set _ _ _ _ hlast2]
                  simp [hdelout]

end QBTableDynamic


namespace QBTableDynamic

theorem runFoldD_none (ops : List OpD) :
    ops.foldl (fun acc op => acc.bind (fun s => stepD s op))
        (none : Option QBTableDynamic)
      = none := by
  induction ops with
  | nil => rfl
  | cons op rest ih => exact ih

theorem idCount_runD_le (k : Nat) :
    ∀ (ops : List OpD) (st : QBTableDynamic), st.deleted.length = st.records.length →
    ∀ dst : QBTableDynamic,
    ops.foldl (fun acc op => acc.bind (fun s => stepD s op)) (some st) = some dst →
    dst.deleted.length = dst.records.length
    ∧ (dst.records.zip dst.deleted).countP (fun rb => !rb.2 && decide (rb.1.id = k))
      ≤ (st.records.zip st.deleted).countP (fun rb => !rb.2 && decide (rb.1.id = k))
        + (addedIdsD ops).count k := by
  intro ops
  induction ops with
  | nil =>
    intro st hlen dst h
    have h3 : some st = some dst := h
    have h2 : st = dst := by injection h3
    subst h2
    exact ⟨hlen, by simp [addedIdsD]⟩
  | cons op rest ih =>
    intro st hlen dst h
    rw [List.foldl_cons] at h
    replace h : rest.foldl (fun acc op => acc.bind (fun s => stepD s op))
        (stepD st op) = some dst := h
    cases hso : stepD st op with
    | none =>
      rw [hso, runFoldD_none] at h
      cases h
    | some st1 =>
      rw [hso] at h
      obtain ⟨hlen1, hb⟩ := idCount_stepD_le k st hlen op st1 hso
      obtain ⟨hlend, hbd⟩ := ih st1 hlen1 dst h
      have hadd : (addedIdsD (op :: rest)).count k
          = (OpD.addedId op).count k + (addedIdsD rest).count k := by
        simp [addedIdsD, List.count_append]
      exact ⟨hlend, by omega⟩

theorem idDup_impossible (ops : List OpD) (hnd : (addedIdsD ops).Nodup)
    (dst : QBTableDynamic) (hrun : runD ops = some dst) :
    ∀ i j, i < j → j < dst.records.length →
    dst.delAt i = false → dst.delAt j = false →
    (dst.recAt i).id = (dst.recAt j).id → False := by
  intro i j hij hj hdi hdj hk
  have hrun2 : ops.foldl (fun acc op => acc.bind (fun s => stepD s op))
      (some init) = some dst := hrun
  obtain ⟨hlen, hcount⟩ :=
    idCount_runD_le ((dst.recAt j).id) ops init rfl dst hrun2
  have hzlen : (dst.records.zip dst.deleted).length = dst.records.length := by
    simp [hlen]
  have hgi : (dst.records.zip dst.deleted).getD i (default, true)
      = (dst.recAt i, dst.delAt i) :=
    getD_zip dst.records dst.deleted hlen.symm i default true
  have hgj : (dst.records.zip dst.deleted).getD j (default, true)
      = (dst.recAt j, dst.delAt j) :=
    getD_zip dst.records dst.deleted hlen.symm j default true
  have h2 : 2 ≤ (dst.records.zip dst.deleted).countP
      (fun rb => !rb.2 && decide (rb.1.id = (dst.recAt j).id)) := by
    refine two_le_countP _ (default, true) _ i j hij (by omega) ?_ ?_
    · rw [hgi]
      simp [hdi, hk]
    · rw [hgj]
      simp [hdj]
  have hc0 : ((init.records.zip init.deleted)).countP
      (fun rb => !rb.2 && decide (rb.1.id = (dst.recAt j).id)) = 0 := rfl
  have hcnt1 : (addedIdsD ops).count ((dst.recAt j).id) ≤ 1 :=
    List.nodup_iff_count_le_one.mp hnd _
  rw [hc0] at hcount
  omega

end QBTableDynamic

/-- C1 (amended): primary-key uniqueness among active records holds for every
call sequence whose inserted keys are pairwise distinct - in the fixed-schema
variant for every reachable state, and in the dynamic variant for every
normally-returning call sequence.  (`addRecord` itself never rejects a
duplicate key, so the restriction to distinct inserted keys is necessary:
see the counterexample.) -/
theorem claim_C1_pk_unique_amended :
    (∀ ops : List Op, (addedPKs ops).Nodup →
      QBTable.PKUniqueAmongActive (QBTable.run ops))
  ∧ (∀ ops : List OpD, (addedIdsD ops).Nodup →
      ∀ dst : QBTableDynamic, QBTableDynamic.runD ops = some dst →
      QBTableDynamic.PKUniqueAmongActiveD dst) := by
  constructor
  · intro ops hnd i j hi hj hdi hdj hk
    rcases Nat.lt_trichotomy i j with hlt | heq | hgt
    · exact (QBTable.pk_dup_impossible ops hnd i j hlt hj hdi hdj hk).elim
    · exact heq
    · exact (QBTable.pk_dup_impossible ops hnd j i hgt hi hdj hdi hk.symm).elim
  · intro ops hnd dst hrun i j hi hj hdi hdj hk
    rcases Nat.lt_trichotomy i j with hlt | heq | hgt
    · exact (QBTableDynamic.idDup_impossible ops hnd dst hrun i j hlt hj
        hdi hdj hk).elim
    · exact heq
    · exact (QBTableDynamic.idDup_impossible ops hnd dst hrun j i hgt hi
        hdj hdi hk.symm).elim

/-- C1 counterexample: `addRecord` performs no duplicate-key check, so adding
two records with primary key 1 leaves two active records holding the same key
and uniqueness fails. -/
theorem claim_C1_cex_duplicate_pk :
    ¬ QBTable.PKUniqueAmongActive
        (QBTable.run [.add ⟨1, "a", 2, "b"⟩, .add ⟨1, "c", 3, "d"⟩]) := by
  intro h
  have h01 := h 0 1 (by decide) (by decide) (by decide) (by decide) (by decide)
  exact absurd h01 (by decide)

/-- Witness for C1 at concrete inputs: distinct-key insertions give
primary-key uniqueness in both variants. -/
theorem claim_C1_witness :
    QBTable.PKUniqueAmongActive
      (QBTable.run [.add ⟨1, "a", 2, "b"⟩, .add ⟨2, "c", 3, "d"⟩])
  ∧ QBTableDynamic.PKUniqueAmongActiveD c1StD :=
  ⟨claim_C1_pk_unique_amended.1 [.add ⟨1, "a", 2, "b"⟩, .add ⟨2, "c", 3, "d"⟩]
      (by decide),
   claim_C1_pk_unique_amended.2 c1OpsD (by decide) c1StD rfl⟩



namespace QBTable

theorem canonical_map_recAt (st : QBTable) (hlen : st.deleted.length = st.records.length)
    (c : ColumnType) (key : FieldType) (p : QBRecord → Bool)
    (hp : ∀ r : QBRecord, decide (colKeyOfRec r c = key) = p r) :
    (canonical st c key).map st.recAt
      = ((st.records.zip st.deleted).filter (fun rb => !rb.2 && p rb.1)).map Prod.fst := by
  unfold canonical canonUpTo
  have hcong : (List.range st.records.length).filter
        (fun i => !(st.delAt i) && decide (st.getColumnIndexKey i c = key))
      = (List.range st.records.length).filter
        (fun i => !(st.deleted.getD i true) && p (st.records.getD i default)) := by
    refine List.filter_congr ?_
    intro i hi
    have hir : i < st.records.length := List.mem_range.mp hi
    show (!(st.delAt i) && decide (st.getColumnIndexKey i c = key))
        = (!(st.delAt i) && p (st.recAt i))
    cases hd : st.delAt i with
    | true => rfl
    | false =>
      have hkey : st.getColumnIndexKey i c = colKeyOfRec (st.recAt i) c := by
        unfold getColumnIndexKey
        rw [if_neg (by omega), if_neg (by rw [hd]; exact Bool.false_ne_true)]
      simp only [Bool.not_false, Bool.true_and]
      rw [hkey, hp (st.recAt i)]
  rw [hcong]
  exact range_filter_map_getD st.records st.deleted p default hlen

theorem findMatching_indexed_eq_scan (st : QBTable) (hinv : Inv st) (c : ColumnType)
    (hmem : c ∈ st.secCols) (key : FieldType) (p : QBRecord → Bool)
    (hp : ∀ r : QBRecord, decide (colKeyOfRec r c = key) = p r) :
    (match alookup (c, key) st.secIdx with
      | none => []
      | some bucket =>
        bucket.foldr (fun i acc => if !st.delAt i then st.recAt i :: acc else acc) [])
      = ((st.records.zip st.deleted).filter (fun rb => !rb.2 && p rb.1)).map Prod.fst := by
  have hsec := hinv.secSound c key
  rw [if_pos hmem] at hsec
  have hcanon := canonical_map_recAt st hinv.lenEq c key p hp
  have hact : ∀ i ∈ canonical st c key, st.delAt i = false := by
    intro i hi
    unfold canonical canonUpTo at hi
    have h2 := List.of_mem_filter hi
    have h3 : (!(st.delAt i)) = true := ((Bool.and_eq_true _ _).mp h2).1
    simpa using h3
  cases hcan : canonical st c key with
  | nil =>
    rw [hcan] at hsec
    rw [show optOfNonempty ([] : List Nat) = none from rfl] at hsec
    rw [hsec]
    rw [hcan] at hcanon
    simpa using hcanon.symm
  | cons i0 t =>
    rw [hcan] at hsec
    rw [show optOfNonempty (i0 :: t) = some (i0 :: t) from rfl] at hsec
    rw [hsec]
    show (i0 :: t).foldr (fun i acc => if !st.delAt i then st.recAt i :: acc else acc) [] = _
    rw [foldr_bucket_eq_map st (i0 :: t) (by rw [← hcan]; exact hact)]
    rw [← hcan, hcanon]

theorem findMatching_column2_indexed (st : QBTable) (hinv : Inv st)
    (hmem : ColumnType.column2 ∈ st.secCols) (s : String) :
    findMatching st .column2 s
      = match parseLongChars s with
        | none => []
        | some v => exactNumScan st v := by
  unfold findMatching
  rw [if_neg (by decide : ¬(ColumnType.column2 = ColumnType.column0)), if_pos hmem]
  cases hpar : parseLongChars s with
  | none => rfl
  | some v =>
    exact findMatching_indexed_eq_scan st hinv .column2 hmem (.l v)
      (fun r => decide (r.column2 = v))
      (by intro r; by_cases h : r.column2 = v <;> simp [colKeyOfRec, h])

theorem findMatching_column1_indexed (st : QBTable) (hinv : Inv st)
    (hmem : ColumnType.column1 ∈ st.secCols) (s : String) :
    findMatching st .column1 s = exactTextScan st QBRecord.column1 s := by
  unfold findMatching
  rw [if_neg (by decide : ¬(ColumnType.column1 = ColumnType.column0)), if_pos hmem]
  exact findMatching_indexed_eq_scan st hinv .column1 hmem (.s s)
    (fun r => decide (r.column1 = s))
    (by intro r; by_cases h : r.column1 = s <;> simp [colKeyOfRec, h])

theorem findMatching_column3_indexed (st : QBTable) (hinv : Inv st)
    (hmem : ColumnType.column3 ∈ st.secCols) (s : String) :
    findMatching st .column3 s = exactTextScan st QBRecord.column3 s := by
  unfold findMatching
  rw [if_neg (by decide : ¬(ColumnType.column3 = ColumnType.column0)), if_pos hmem]
  exact findMatching_indexed_eq_scan st hinv .column3 hmem (.s s)
    (fun r => decide (r.column3 = s))
    (by intro r; by_cases h : r.column3 = s <;> simp [colKeyOfRec, h])

theorem findMatching_dropIndex_scan (st : QBTable) (c : ColumnType)
    (hc : ¬ c = ColumnType.column0) (s : String) :
    findMatching (dropIndex c st) c s = linearScan st c s := by
  have hsc : (dropIndex c st).secCols
      = st.secCols.filter (fun x => !decide (x = c)) := by
    unfold dropIndex
    rw [if_neg hc]
    rfl
  have hnm : c ∉ (dropIndex c st).secCols := by
    rw [hsc]
    intro hmem2
    have h2 := List.of_mem_filter hmem2
    simp at h2
  unfold findMatching
  rw [if_neg hc, if_neg hnm]
  show linearScan.go c s ((dropIndex c st).records.zip (dropIndex c st).deleted)
      = linearScan.go c s (st.records.zip st.deleted)
  rw [dropIndex_records, dropIndex_deleted]

end QBTable


/-- C2 (amended): in the fixed-schema variant, for every reachable state, the
numeric secondary column answers exactly alike with its index and with the
index dropped, while indexed text columns answer by exact match and
fall back to substring containment once their index is dropped (the documented
asymmetry); the dynamic variant breaks the equivalence beyond that asymmetry:
its dropped-index fallback scan reads only stored fields, so a query on a
column stored in no record (e.g. a derived column) returns nothing. -/
theorem claim_C2_index_scan_amended :
    (∀ (ops : List Op) (s : String),
      (ColumnType.column2 ∈ (QBTable.run ops).secCols →
        QBTable.findMatching (QBTable.run ops) .column2 s
          = QBTable.findMatching
              (QBTable.dropIndex .column2 (QBTable.run ops)) .column2 s)
    ∧ (ColumnType.column1 ∈ (QBTable.run ops).secCols →
        QBTable.findMatching (QBTable.run ops) .column1 s
          = QBTable.exactTextScan (QBTable.run ops) QBRecord.column1 s
      ∧ QBTable.findMatching (QBTable.dropIndex .column1 (QBTable.run ops)) .column1 s
          = QBTable.substrTextScan (QBTable.run ops) QBRecord.column1 s)
    ∧ (ColumnType.column3 ∈ (QBTable.run ops).secCols →
        QBTable.findMatching (QBTable.run ops) .column3 s
          = QBTable.exactTextScan (QBTable.run ops) QBRecord.column3 s
      ∧ QBTable.findMatching (QBTable.dropIndex .column3 (QBTable.run ops)) .column3 s
          = QBTable.substrTextScan (QBTable.run ops) QBRecord.column3 s))
  ∧ (∀ (dst : QBTableDynamic) (c : String) (v : FieldType), ¬ c = "id" →
      (∀ r ∈ dst.records, alookup c r.fields = none) →
      ∀ dst2 : QBTableDynamic, QBTableDynamic.dropIndex c dst = .ok dst2 →
      QBTableDynamic.findMatching c v dst2 = .ok []) := by
  constructor
  · intro ops s
    have hinv := QBTable.Inv_run ops
    refine ⟨?_, ?_, ?_⟩
    · intro hmem
      rw [QBTable.findMatching_column2_indexed (QBTable.run ops) hinv hmem s,
        QBTable.findMatching_dropIndex_scan (QBTable.run ops) .column2 (by decide) s]
      cases hpar : parseLongChars s with
      | none =>
        show ([] : List QBRecord)
            = QBTable.linearScan.go .column2 s
              ((QBTable.run ops).records.zip (QBTable.run ops).deleted)
        rw [QBTable.linearScan_go_column2_none s hpar]
      | some v =>
        show QBTable.exactNumScan (QBTable.run ops) v
            = QBTable.linearScan.go .column2 s
              ((QBTable.run ops).records.zip (QBTable.run ops).deleted)
        rw [QBTable.linearScan_go_column2_some s v hpar]
        rfl
    · intro hmem
      refine ⟨QBTable.findMatching_column1_indexed (QBTable.run ops) hinv hmem s, ?_⟩
      rw [QBTable.findMatching_dropIndex_scan (QBTable.run ops) .column1 (by decide) s]
      show QBTable.linearScan.go .column1 s
          ((QBTable.run ops).records.zip (QBTable.run ops).deleted) = _
      rw [QBTable.linearScan_go_column1 s]
      rfl
    · intro hmem
      refine ⟨QBTable.findMatching_column3_indexed (QBTable.run ops) hinv hmem s, ?_⟩
      rw [QBTable.findMatching_dropIndex_scan (QBTable.run ops) .column3 (by decide) s]
      show QBTable.linearScan.go .column3 s
          ((QBTable.run ops).records.zip (QBTable.run ops).deleted) = _
      rw [QBTable.linearScan_go_column3 s]
      rfl
  · intro dst c v hc hfield dst2 hdrop
    unfold QBTableDynamic.dropIndex at hdrop
    rw [if_neg hc] at hdrop
    have h3 : Except.ok ({ dst with
        secCols := dst.secCols.filter (fun x => !decide (x = c))
        secIdx := dst.secIdx.filter (fun kv => !decide (kv.1.1 = c)) } : QBTableDynamic)
        = Except.ok dst2 := hdrop
    have h2 : ({ dst with
        secCols := dst.secCols.filter (fun x => !decide (x = c))
        secIdx := dst.secIdx.filter (fun kv => !decide (kv.1.1 = c)) } : QBTableDynamic)
        = dst2 := by
      injection h3
    subst h2
    unfold QBTableDynamic.findMatching
    rw [if_neg hc]
    have hnone : alookup (c, v) (dst.secIdx.filter (fun kv => !decide (kv.1.1 = c)))
        = none := alookup_filter_fst_ne dst.secIdx (c, v) rfl
    rw [show alookup (c, v) ({ dst with
        secCols := dst.secCols.filter (fun x => !decide (x = c))
        secIdx := dst.secIdx.filter (fun kv => !decide (kv.1.1 = c)) }
          : QBTableDynamic).secIdx
        = none from hnone]
    have hfil : (dst.records.zip dst.deleted).filter
        (fun rb => decide ((!rb.2) = true ∧ alookup c rb.1.fields = some v)) = [] := by
      rw [List.filter_eq_nil_iff]
      intro rb hrb
      have hmem := List.mem_zip hrb
      have hnone2 := hfield rb.1 hmem.1
      simp [hnone2]
    show Except.ok (((dst.records.zip dst.deleted).filter
        (fun rb => decide ((!rb.2) = true ∧ alookup c rb.1.fields = some v))).map
          Prod.fst)
      = Except.ok ([] : List QBRecordDynamic)
    rw [hfil]
    rfl

/-- C2 counterexample: in the dynamic variant an indexed derived column
answers from its bucket, but with the index dropped the fallback scan reads
only stored fields, so the very same query returns nothing — a divergence
beyond the documented text-column asymmetry. -/
theorem claim_C2_cex_derived_index_scan :
    QBTableDynamic.runD c2OpsD = some c2StD
  ∧ QBTableDynamic.findMatching "len" (.u 3) c2StD = .ok [⟨1, [("a", .s "x")]⟩]
  ∧ QBTableDynamic.dropIndex "len" c2StD = .ok c2StDrop
  ∧ QBTableDynamic.findMatching "len" (.u 3) c2StDrop = .ok [] :=
  ⟨rfl, rfl, rfl, rfl⟩

/-- Witness for C2 at concrete inputs: the numeric equivalence and the
text-column exact-match characterization on a two-record indexed table, and
the dynamic derived-column divergence. -/
theorem claim_C2_witness :
    QBTable.findMatching (QBTable.run c2Ops) .column2 "2"
      = QBTable.findMatching (QBTable.dropIndex .column2 (QBTable.run c2Ops)) .column2 "2"
  ∧ QBTable.findMatching (QBTable.run c2Ops) .column1 "a"
      = QBTable.exactTextScan (QBTable.run c2Ops) QBRecord.column1 "a"
  ∧ QBTableDynamic.findMatching "len" (.u 3) c2StDrop = .ok [] :=
  ⟨(claim_C2_index_scan_amended.1 c2Ops "2").1 (by decide),
   ((claim_C2_index_scan_amended.1 c2Ops "a").2.1 (by decide)).1,
   claim_C2_index_scan_amended.2 c2StD "len" (.u 3) (by decide) (by decide)
     c2StDrop rfl⟩


end Quickbase
